import Mathlib

/-!
# Verification of the DoctoSync reconciliation engine

A shallow embedding of `doctosync.py`: the appointment-fetch cleaning step,
the existing-event map construction, the per-week reconciliation loop
(`synchronize_week`), the event-body projection (`_build_event_body`) and the
multi-week driver loop of `main`, together with theorems settling the frozen
claims about the program.

Conventions of the embedding:
* Python strings are Lean `String`s; `str.strip()` is `pyStrip` (implemented on
  the character list so that its idempotence is provable), `s.split('T')[0]` is
  `dayOf` (the characters before the first `'T'`), and
  `desc.split('SYNC_KEY:')[1]` is implemented by `afterFirst`/`upToNext`
  (the characters between the first and the second occurrence of the marker,
  exactly as Python's `str.split` produces them).
* Python ints are `Int`; Python bools are `Bool`.
* A Python dict used as a map is an association list `List (String × _)` whose
  keys are distinct; dict insertion (`d[k] = v`) is `dictInsert`, which keeps
  the position of an existing key and appends a fresh one, like CPython.
* The Google-calendar gateway is abstract: `synchronize_week` is embedded as a
  function producing the sequence of gateway operations it issues
  (`PlanOp`), in issue order.  A variant `synchronizeWeekRun` additionally
  threads an oracle saying which gateway calls raise `HttpError`, mirroring
  the per-operation `try/except` blocks of the source.
-/

/-- Python `str.strip()` on a character list: drop whitespace from both ends. -/
def stripChars (l : List Char) : List Char :=
  ((l.dropWhile Char.isWhitespace).reverse.dropWhile Char.isWhitespace).reverse

/-- Python `str.strip()`. -/
def pyStrip (s : String) : String :=
  ⟨stripChars s.data⟩

/-- Characters after the first occurrence of `pat` (Python
`s.split(pat)[1:]` viewpoint); `none` when `pat` does not occur. -/
def afterFirst (pat : List Char) : List Char → Option (List Char)
  | [] => if pat.isEmpty then some [] else none
  | c :: rest =>
    if pat.isPrefixOf (c :: rest) then some ((c :: rest).drop pat.length)
    else afterFirst pat rest

/-- Characters before the next occurrence of `pat` (the end of a Python
`str.split(pat)` piece). -/
def upToNext (pat : List Char) : List Char → List Char
  | [] => []
  | c :: rest => if pat.isPrefixOf (c :: rest) then [] else c :: upToNext pat rest

/-- Reminder configuration of a calendar event (the `reminders` dict).
`absent` is a missing/empty dict, `useDefault` is `{'useDefault': True}` and
`overrides l` is `{'useDefault': False, 'overrides': l}` with `l` a list of
`(method, minutes)` pairs. Distinct Python dicts map to distinct values, so
Lean equality matches Python dict equality on these shapes. -/
inductive RemCfg where
  | absent
  | useDefault
  | overrides (l : List (String × Int))
deriving DecidableEq, Repr, Inhabited

/-- A cleaned Doctolib appointment (the dict built in `fetch_appointments`). -/
structure Rdv where
  start_date : String
  end_date : String
  new_patient : Bool
  status : String
  summary : String
deriving DecidableEq, Repr, Inhabited

/-- An existing Google-calendar event, restricted to the fields the script
reads. A missing `location` is the empty string (the script only reads it via
`event.get('location', '')`). -/
structure GEvent where
  id : String
  summary : String
  description : String
  location : String
  reminders : RemCfg
deriving DecidableEq, Repr, Inhabited

/-- The event body built by `_build_event_body` (a `location` key is present
only when the configured address is non-empty, hence `Option`). -/
structure EventBody where
  summary : String
  description : String
  startDateTime : String
  endDateTime : String
  location : Option String
  reminders : RemCfg
deriving DecidableEq, Repr, Inhabited

/-- A raw appointment as returned by the Doctolib API (`data` array entries),
restricted to the keys the script reads; `Option` marks keys that may be
missing (Python `dict.get`). -/
structure RawAppt where
  start_date : Option String
  end_date : Option String
  new_patient : Bool
  status : Option String
deriving DecidableEq, Repr, Inhabited

/-- The configuration values `synchronize_week` reads from `config['config']`
(already defaulted: `notification` defaults to 30, `first_of_day` to 0,
`localisation` to the empty string). -/
structure SyncConfig where
  notification : Int
  first_of_day : Int
  localisation : String
deriving DecidableEq, Repr, Inhabited

/-- A gateway operation issued by `synchronize_week`, tagged with the sync key
it concerns (the key is in scope at every call site in the source: it is the
loop's `sync_key` for insert/update and the iterated key for delete). -/
inductive PlanOp where
  | create (syncKey : String) (body : EventBody)
  | update (syncKey : String) (eventId : String) (body : EventBody)
  | delete (syncKey : String) (eventId : String)
deriving DecidableEq, Repr, Inhabited

def PlanOp.key : PlanOp → String
  | .create k _ => k
  | .update k _ _ => k
  | .delete k _ => k

def PlanOp.isCreate : PlanOp → Bool
  | .create _ _ => true
  | _ => false

def PlanOp.isUpdate : PlanOp → Bool
  | .update _ _ _ => true
  | _ => false

def PlanOp.isDelete : PlanOp → Bool
  | .delete _ _ => true
  | _ => false

/-- The destination event id an operation writes to (`none` for a create,
whose id is chosen by the gateway). -/
def PlanOp.targetId : PlanOp → Option String
  | .create _ _ => none
  | .update _ i _ => some i
  | .delete _ i => some i

/-! ## Fetching and cleaning appointments (`fetch_appointments`, lines 109-199) -/

/-- The cleaning loop over the API's `data` array (lines 169-197): drop
appointments whose `status` is `deleted` (case-insensitively), counting them,
and keep the rest when both dates are present and non-empty (Python
truthiness of `cleaned_rdv['start_date'] and cleaned_rdv['end_date']`). -/
def cleanAppointments : List RawAppt → List Rdv × Nat
  | [] => ([], 0)
  | a :: rest =>
    let r := cleanAppointments rest
    let statusValue := a.status.getD "confirmed"
    if statusValue.toLower = "deleted" then (r.1, r.2 + 1)
    else
      match a.start_date, a.end_date with
      | some sd, some ed =>
        if sd ≠ "" ∧ ed ≠ "" then
          ({ start_date := sd, end_date := ed, new_patient := a.new_patient,
             status := statusValue,
             summary := if a.new_patient then "Nouveau patient" else "Suivi" } :: r.1, r.2)
        else r
      | _, _ => r

/-- Outcome of `fetch_appointments`: either a cleaned list with the ignored
count, or a raised `HTTPError` (from `response.raise_for_status()` or the
request itself) that propagates to `main`. -/
inductive FetchOutcome where
  | ok (appointments : List Rdv) (ignored : Nat)
  | httpError
deriving DecidableEq, Repr, Inhabited

/-- `fetch_appointments` (lines 109-199). `dateValid` is whether
`datetime.strptime` accepts the week-start string (an invalid date returns
`([], 0)` at line 126); `cookieFile` is the content of the cookie file, with
`none` for `FileNotFoundError` (then `load_cookies_from_file` returns `None`
and the function returns `([], 0)` at line 142, without any HTTP call);
`httpOk` is whether the HTTP request succeeds, and `apiData` is the response's
`data` array. -/
def fetchAppointments (dateValid : Bool) (cookieFile : Option String)
    (httpOk : Bool) (apiData : List RawAppt) : FetchOutcome :=
  if !dateValid then .ok [] 0
  else
    match cookieFile with
    | none => .ok [] 0
    | some _ =>
      if !httpOk then .httpError
      else .ok (cleanAppointments apiData).1 (cleanAppointments apiData).2

/-! ## The existing-event map (`get_existing_events`, lines 238-268) -/

/-- CPython dict insertion on an association list: an existing key keeps its
position and gets the new value; a fresh key is appended. -/
def dictInsert (m : List (String × GEvent)) (k : String) (v : GEvent) :
    List (String × GEvent) :=
  if m.any (fun p => p.1 = k) then
    m.map (fun p => if p.1 = k then (k, v) else p)
  else m ++ [(k, v)]

/-- The sync-key extraction of line 263:
`event.get('description','').split('SYNC_KEY:')[1].strip()` when the marker
occurs in the description, `None` otherwise.  `split(pat)[1]` is the text
between the first and the second occurrence of the marker. -/
def rawSyncKey (description : String) : Option String :=
  match afterFirst "SYNC_KEY:".data description.data with
  | some rest => some ⟨stripChars (upToNext "SYNC_KEY:".data rest)⟩
  | none => none

/-- Lines 259-268: build the map from extracted sync key to event, skipping
events whose key is `None` or empty (Python truthiness of `if sync_key:`). -/
def getExistingEvents (events : List GEvent) : List (String × GEvent) :=
  events.foldl
    (fun m ev =>
      match rawSyncKey ev.description with
      | some k => if k ≠ "" then dictInsert m k ev else m
      | none => m)
    []

/-! ## Event projection (`_build_event_body`, lines 270-295) -/

/-- The sync key of line 317: start, end and the Python `repr` of the
new-patient flag joined by `|`. -/
def syncKeyFor (rdv : Rdv) : String :=
  rdv.start_date ++ "|" ++ rdv.end_date ++ "|" ++ (if rdv.new_patient then "True" else "False")

/-- The calendar day of line 318: `rdv['start_date'].split('T')[0]`, i.e. the
characters before the first `'T'`. -/
def dayOf (rdv : Rdv) : String :=
  ⟨rdv.start_date.data.takeWhile (fun c => c ≠ 'T')⟩

/-- `_build_event_body` (lines 270-295). -/
def buildEventBody (rdv : Rdv) (syncKey : String) (locationAddress : String)
    (reminderMinutes : Int) : EventBody :=
  { summary := rdv.summary ++ " [" ++ rdv.status ++ "]"
    description := "Synchronisé depuis Doctolib. SYNC_KEY: " ++ syncKey
    startDateTime := rdv.start_date
    endDateTime := rdv.end_date
    location := if locationAddress ≠ "" then some locationAddress else none
    reminders :=
      if reminderMinutes > 0 then .overrides [("popup", reminderMinutes)]
      else .useDefault }

/-! ## The reconciliation loop (`synchronize_week`, lines 297-361) -/

/-- The reminder chosen at lines 319-324 for one appointment, given the day of
the previously scanned appointment (`last_day_processed`, `none` initially). -/
def reminderForDay (defRem firstRem : Int) (lastDay : Option String)
    (currentDay : String) : Int :=
  if lastDay ≠ some currentDay then
    if firstRem > 0 then firstRem else defRem
  else defRem

/-- The reminder minutes assigned to each appointment of an (already sorted)
list by the scan of lines 316-324. -/
def reminderScan (defRem firstRem : Int) : Option String → List Rdv → List Int
  | _, [] => []
  | lastDay, rdv :: rest =>
    reminderForDay defRem firstRem lastDay (dayOf rdv) ::
      reminderScan defRem firstRem (some (dayOf rdv)) rest

/-- Lexicographic code-point comparison of character lists: Python's string
`<=` order. -/
def lexLe : List Char → List Char → Bool
  | [], _ => true
  | _ :: _, [] => false
  | a :: as, b :: bs =>
    if a.toNat < b.toNat then true
    else if b.toNat < a.toNat then false
    else lexLe as bs

/-- Python string `<=` (lexicographic by code point). -/
def strLe (a b : String) : Bool :=
  lexLe a.data b.data

/-- Stable insertion for the stable ascending sort by `start_date` of
line 308 (Python's `list.sort(key=...)` is stable; an equal key is passed,
keeping the earlier element first). -/
def insertByStart (a : Rdv) : List Rdv → List Rdv
  | [] => [a]
  | b :: bs =>
    if strLe b.start_date a.start_date then b :: insertByStart a bs
    else a :: b :: bs

/-- Line 308: `appointments_to_sync.sort(key=lambda rdv: rdv['start_date'])`,
a stable ascending sort, embedded as stable insertion sort (extensionally
equal to any stable sort by the same key). -/
def sortAppointments : List Rdv → List Rdv
  | [] => []
  | a :: rest => insertByStart a (sortAppointments rest)

/-- The per-appointment body of the loop (lines 316-350), emitting the gateway
operation this iteration issues (one create, one update, or nothing). -/
def emitOp (existing : List (String × GEvent)) (locAddr : String) (minutes : Int)
    (rdv : Rdv) : List PlanOp :=
  let sk := syncKeyFor rdv
  let body := buildEventBody rdv sk locAddr minutes
  match List.lookup sk existing with
  | some ev =>
    if pyStrip ev.location ≠ locAddr ∨ body.reminders ≠ ev.reminders then
      [.update sk ev.id body]
    else []
  | none => [.create sk body]

/-- The main loop of `synchronize_week` (lines 316-350): walk the sorted
appointments threading `last_day_processed` and the to-delete key set,
returning the emitted operations (in order) and the final to-delete keys. -/
def syncLoop (existing : List (String × GEvent)) (locAddr : String)
    (defRem firstRem : Int) :
    Option String → List String → List Rdv → List PlanOp × List String
  | _, deleteKeys, [] => ([], deleteKeys)
  | lastDay, deleteKeys, rdv :: rest =>
    let sk := syncKeyFor rdv
    let currentDay := dayOf rdv
    let minutes := reminderForDay defRem firstRem lastDay currentDay
    let body := buildEventBody rdv sk locAddr minutes
    match List.lookup sk existing with
    | some ev =>
      let next := syncLoop existing locAddr defRem firstRem (some currentDay)
        (deleteKeys.filter (fun k => k ≠ sk)) rest
      if pyStrip ev.location ≠ locAddr ∨ body.reminders ≠ ev.reminders then
        (PlanOp.update sk ev.id body :: next.1, next.2)
      else next
    | none =>
      let next := syncLoop existing locAddr defRem firstRem (some currentDay)
        deleteKeys rest
      (PlanOp.create sk body :: next.1, next.2)

/-- `synchronize_week` (lines 297-361) as the sequence of gateway operations
it issues: the interleaved creates/updates of the appointment loop, followed
by one delete per key left in `events_to_delete_keys` (resolved to the
existing event's id, line 358). -/
def synchronizeWeek (cfg : SyncConfig) (appointments : List Rdv)
    (existing : List (String × GEvent)) : List PlanOp :=
  let locAddr := pyStrip cfg.localisation
  let sorted := sortAppointments appointments
  let r := syncLoop existing locAddr cfg.notification cfg.first_of_day none
    (existing.map Prod.fst) sorted
  r.1 ++ r.2.filterMap
    (fun k => (List.lookup k existing).map (fun ev => PlanOp.delete k ev.id))

/-- `synchronize_week` with the gateway visible: `ok` says which calls succeed
(an `HttpError` raise is caught by the per-call `try/except` of lines 339-344,
347-350 and 356-361 and only printed).  Each attempted operation is paired
with its success; a failure changes nothing else in the loop state. -/
def syncLoopRun (ok : PlanOp → Bool) (existing : List (String × GEvent))
    (locAddr : String) (defRem firstRem : Int) :
    Option String → List String → List Rdv → List (PlanOp × Bool) × List String
  | _, deleteKeys, [] => ([], deleteKeys)
  | lastDay, deleteKeys, rdv :: rest =>
    let sk := syncKeyFor rdv
    let currentDay := dayOf rdv
    let minutes := reminderForDay defRem firstRem lastDay currentDay
    let body := buildEventBody rdv sk locAddr minutes
    match List.lookup sk existing with
    | some ev =>
      let next := syncLoopRun ok existing locAddr defRem firstRem (some currentDay)
        (deleteKeys.filter (fun k => k ≠ sk)) rest
      if pyStrip ev.location ≠ locAddr ∨ body.reminders ≠ ev.reminders then
        ((PlanOp.update sk ev.id body, ok (PlanOp.update sk ev.id body)) :: next.1, next.2)
      else next
    | none =>
      let next := syncLoopRun ok existing locAddr defRem firstRem (some currentDay)
        deleteKeys rest
      ((PlanOp.create sk body, ok (PlanOp.create sk body)) :: next.1, next.2)

/-- `synchronize_week` under the failure oracle `ok`: the attempted gateway
operations in order, each with its success status. -/
def synchronizeWeekRun (ok : PlanOp → Bool) (cfg : SyncConfig)
    (appointments : List Rdv) (existing : List (String × GEvent)) :
    List (PlanOp × Bool) :=
  let locAddr := pyStrip cfg.localisation
  let sorted := sortAppointments appointments
  let r := syncLoopRun ok existing locAddr cfg.notification cfg.first_of_day none
    (existing.map Prod.fst) sorted
  r.1 ++ r.2.filterMap
    (fun k => (List.lookup k existing).map
      (fun ev => (PlanOp.delete k ev.id, ok (PlanOp.delete k ev.id))))

/-! ## The multi-week driver (`main`, lines 363-421) -/

/-- The week loop of `main` (lines 395-418): process weeks `i, i+1, ...`
(`n` of them), returning the indices of the weeks that were synchronized.  An
`HTTPError` raised by `fetch_appointments` is caught at lines 407-410 and
makes `main` `return`, ending the whole run. -/
def runWeeks (fetch : Nat → FetchOutcome) : Nat → Nat → List Nat
  | _, 0 => []
  | i, Nat.succ k =>
    match fetch i with
    | .httpError => []
    | .ok _ _ => i :: runWeeks fetch (i + 1) k

/-! ## Derived plan views -/

/-- Keys of the create operations of an issued operation sequence. -/
def planCreateKeys (ops : List PlanOp) : List String :=
  ops.filterMap (fun op => match op with | .create k _ => some k | _ => none)

/-- Keys of the update operations of an issued operation sequence. -/
def planUpdateKeys (ops : List PlanOp) : List String :=
  ops.filterMap (fun op => match op with | .update k _ _ => some k | _ => none)

/-- Keys of the delete operations of an issued operation sequence. -/
def planDeleteKeys (ops : List PlanOp) : List String :=
  ops.filterMap (fun op => match op with | .delete k _ => some k | _ => none)

/-- The delete operations of an issued operation sequence. -/
def planDeleteOps (ops : List PlanOp) : List PlanOp :=
  ops.filter (fun op => op.isDelete)

/-- The notification policy in isolation: the minutes assigned to each
appointment of the week, in sorted order (lines 308 and 316-324). -/
def assignedMinutes (cfg : SyncConfig) (appointments : List Rdv) : List Int :=
  reminderScan cfg.notification cfg.first_of_day none (sortAppointments appointments)

/-! ## Applying a plan to the destination map

The destination state after a successful application of a week's operations,
at the level of the sync-key map that `get_existing_events` would rebuild:
a create adds the projected event under its key (with a gateway-chosen id),
an update rewrites the matched entry's content, a delete removes the entry. -/

/-- The destination event resulting from a successfully written body (a body
without a `location` key yields an event whose `location` reads back as `''`). -/
def eventOfBody (id : String) (b : EventBody) : GEvent :=
  { id := id, summary := b.summary, description := b.description,
    location := b.location.getD "", reminders := b.reminders }

/-- Effect of one successful gateway operation on the key-indexed destination
map (`idOf` chooses the id of a created event). -/
def applyOp (idOf : String → String) (m : List (String × GEvent)) :
    PlanOp → List (String × GEvent)
  | .create k b => dictInsert m k (eventOfBody (idOf k) b)
  | .update k i b => m.map (fun p => if p.1 = k then (k, eventOfBody i b) else p)
  | .delete k _ => m.filter (fun p => p.1 ≠ k)

/-- Effect of a successfully applied operation sequence on the destination map. -/
def applyPlan (idOf : String → String) (m : List (String × GEvent))
    (ops : List PlanOp) : List (String × GEvent) :=
  ops.foldl (applyOp idOf) m

/-! ## Infrastructure lemmas -/

theorem stripChars_eq_rdropWhile (l : List Char) :
    stripChars l =
      List.rdropWhile Char.isWhitespace (List.dropWhile Char.isWhitespace l) := rfl

theorem head_not_of_dropWhile_self {α : Type} {p : α → Bool} {l r u : List α}
    (h : r ++ u = l) (hr : 0 < r.length) (hl : List.dropWhile p l = l) :
    ¬ p (r.get ⟨0, hr⟩) := by
  subst h
  have hlen : 0 < (r ++ u).length := by
    simp only [List.length_append]
    omega
  have h0 := List.dropWhile_eq_self_iff.mp hl hlen
  have hget : (r ++ u).get ⟨0, hlen⟩ = r.get ⟨0, hr⟩ := by
    simp only [List.get_eq_getElem]
    exact List.getElem_append_left hr
  rw [hget] at h0
  exact h0

theorem stripChars_idem (l : List Char) :
    stripChars (stripChars l) = stripChars l := by
  rw [stripChars_eq_rdropWhile, stripChars_eq_rdropWhile]
  set ws := Char.isWhitespace with hws
  set t := List.dropWhile ws l with ht
  have hdw : List.dropWhile ws (List.rdropWhile ws t) = List.rdropWhile ws t := by
    apply List.dropWhile_eq_self_iff.mpr
    intro hl
    obtain ⟨u, hu⟩ := List.rdropWhile_prefix ws t
    have htt : List.dropWhile ws t = t := by
      rw [ht]; exact List.dropWhile_idempotent ws l
    exact head_not_of_dropWhile_self hu hl htt
  rw [hdw]
  exact List.rdropWhile_idempotent ws t

theorem pyStrip_idem (s : String) : pyStrip (pyStrip s) = pyStrip s := by
  unfold pyStrip
  exact congrArg String.mk (stripChars_idem s.data)

theorem lookup_cons_unfold {α β : Type} [BEq α] (k : α) (p : α × β)
    (t : List (α × β)) :
    List.lookup k (p :: t) = if k == p.1 then some p.2 else List.lookup k t := by
  cases p with
  | mk a b =>
    by_cases h : k == a
    · simp only [List.lookup, h, if_true]
    · simp only [List.lookup, Bool.not_eq_true] at *
      simp [List.lookup, h]

theorem lookup_isSome_of_mem_keys {α β : Type} [BEq α] [LawfulBEq α]
    {k : α} {m : List (α × β)} (h : k ∈ m.map Prod.fst) :
    (List.lookup k m).isSome := by
  induction m with
  | nil => simp at h
  | cons p t ih =>
    rw [lookup_cons_unfold]
    simp only [List.map_cons, List.mem_cons] at h
    by_cases hk : k == p.1
    · simp [hk]
    · have : k ∈ t.map Prod.fst := by
        rcases h with h | h
        · exact absurd (beq_iff_eq.mpr h) (by simpa using hk)
        · exact h
      simpa [hk] using ih this

theorem lookup_eq_none_of_not_mem_keys {α β : Type} [BEq α] [LawfulBEq α]
    {k : α} {m : List (α × β)} (h : k ∉ m.map Prod.fst) :
    List.lookup k m = none := by
  induction m with
  | nil => rfl
  | cons p t ih =>
    rw [lookup_cons_unfold]
    simp only [List.map_cons, List.mem_cons, not_or] at h
    have hk : (k == p.1) = false := by simpa using h.1
    simpa [hk] using ih h.2

theorem mem_of_lookup_eq_some {α β : Type} [BEq α] [LawfulBEq α]
    {k : α} {v : β} {m : List (α × β)} (h : List.lookup k m = some v) :
    (k, v) ∈ m := by
  induction m with
  | nil => simp [List.lookup] at h
  | cons p t ih =>
    rw [lookup_cons_unfold] at h
    by_cases hk : k == p.1
    · rw [if_pos hk] at h
      obtain ⟨a, b⟩ := p
      have h1 : k = a := beq_iff_eq.mp hk
      have h2 : v = b := (Option.some.inj h).symm
      subst h1
      subst h2
      exact List.mem_cons_self _ _
    · rw [if_neg hk] at h
      exact List.mem_cons_of_mem _ (ih h)

theorem lookup_eq_some_of_nodup {α β : Type} [BEq α] [LawfulBEq α]
    {k : α} {v : β} {m : List (α × β)}
    (hnd : (m.map Prod.fst).Nodup) (h : (k, v) ∈ m) :
    List.lookup k m = some v := by
  induction m with
  | nil => simp at h
  | cons p t ih =>
    simp only [List.map_cons, List.nodup_cons] at hnd
    rw [lookup_cons_unfold]
    rcases List.mem_cons.mp h with h1 | h1
    · rw [← h1]
      simp
    · have hne : (k == p.1) = false := by
        simp only [beq_eq_false_iff_ne, ne_eq]
        intro hk
        exact hnd.1 (hk ▸ List.mem_map_of_mem Prod.fst h1)
      rw [hne, if_neg (by simp)]
      exact ih hnd.2 h1

theorem mem_of_mem_dictInsert {m : List (String × GEvent)} {k : String}
    {v : GEvent} {p : String × GEvent} (h : p ∈ dictInsert m k v) :
    p ∈ m ∨ p = (k, v) := by
  unfold dictInsert at h
  by_cases hc : m.any (fun q => q.1 = k)
  · rw [if_pos hc] at h
    obtain ⟨q, hq, hpq⟩ := List.mem_map.mp h
    by_cases hqk : q.1 = k
    · right; rw [← hpq, if_pos hqk]
    · left; rw [← hpq, if_neg hqk]; exact hq
  · rw [if_neg hc] at h
    rcases List.mem_append.mp h with h1 | h1
    · exact Or.inl h1
    · right; simpa using h1

theorem insertByStart_perm (a : Rdv) (l : List Rdv) :
    (insertByStart a l).Perm (a :: l) := by
  induction l with
  | nil => exact List.Perm.refl _
  | cons b bs ih =>
    unfold insertByStart
    by_cases hc : strLe b.start_date a.start_date
    · rw [if_pos hc]
      exact (ih.cons b).trans (List.Perm.swap a b bs)
    · rw [if_neg hc]

theorem sortAppointments_perm (l : List Rdv) :
    (sortAppointments l).Perm l := by
  induction l with
  | nil => exact List.Perm.refl _
  | cons a t ih =>
    exact (insertByStart_perm a (sortAppointments t)).trans (ih.cons a)

theorem mem_sortAppointments {a : Rdv} {l : List Rdv} :
    a ∈ sortAppointments l ↔ a ∈ l :=
  (sortAppointments_perm l).mem_iff

theorem syncLoop_fst (existing : List (String × GEvent)) (locAddr : String)
    (defRem firstRem : Int) (lastDay : Option String) (deleteKeys : List String)
    (l : List Rdv) :
    (syncLoop existing locAddr defRem firstRem lastDay deleteKeys l).1 =
      ((l.zip (reminderScan defRem firstRem lastDay l)).map
        (fun p => emitOp existing locAddr p.2 p.1)).flatten := by
  induction l generalizing lastDay deleteKeys with
  | nil => rfl
  | cons rdv rest ih =>
    simp only [syncLoop, reminderScan, List.zip_cons_cons, List.map_cons,
      List.flatten_cons, emitOp]
    cases hlk : List.lookup (syncKeyFor rdv) existing with
    | none =>
      simp only [hlk, List.singleton_append, List.cons.injEq, true_and]
      exact ih _ _
    | some ev =>
      simp only [hlk]
      by_cases hc : pyStrip ev.location ≠ locAddr ∨
          (buildEventBody rdv (syncKeyFor rdv) locAddr
            (reminderForDay defRem firstRem lastDay (dayOf rdv))).reminders ≠ ev.reminders
      · rw [if_pos hc, if_pos hc]
        simp only [List.singleton_append, List.cons.injEq, true_and]
        exact ih _ _
      · rw [if_neg hc, if_neg hc]
        simp only [List.nil_append]
        exact ih _ _

theorem syncLoop_snd (existing : List (String × GEvent)) (locAddr : String)
    (defRem firstRem : Int) (lastDay : Option String) (deleteKeys : List String)
    (l : List Rdv) :
    (syncLoop existing locAddr defRem firstRem lastDay deleteKeys l).2 =
      deleteKeys.filter (fun k =>
        l.all (fun r =>
          !(syncKeyFor r == k && (List.lookup (syncKeyFor r) existing).isSome))) := by
  induction l generalizing lastDay deleteKeys with
  | nil => simp [syncLoop]
  | cons rdv rest ih =>
    simp only [syncLoop]
    cases hlk : List.lookup (syncKeyFor rdv) existing with
    | none =>
      rw [ih _ _]
      apply List.filter_congr
      intro k _
      simp only [List.all_cons, hlk, Option.isSome_none, Bool.and_false, Bool.not_false,
        Bool.true_and]
    | some ev =>
      have hbody : ∀ (next : List PlanOp × List String) (c : Prop) [Decidable c]
          (op : PlanOp),
          ((if c then (op :: next.1, next.2) else next)).2 = next.2 := by
        intro next c _ op
        by_cases hc : c
        · rw [if_pos hc]
        · rw [if_neg hc]
      rw [hbody]
      rw [ih _ _]
      rw [List.filter_filter]
      apply List.filter_congr
      intro k _
      simp only [List.all_cons, hlk, Option.isSome_some, Bool.and_true]
      by_cases hk : syncKeyFor rdv = k
      · simp [hk]
      · simp [hk, Ne.symm hk]

theorem syncLoopRun_eq (ok : PlanOp → Bool) (existing : List (String × GEvent))
    (locAddr : String) (defRem firstRem : Int) (lastDay : Option String)
    (deleteKeys : List String) (l : List Rdv) :
    syncLoopRun ok existing locAddr defRem firstRem lastDay deleteKeys l =
      ((syncLoop existing locAddr defRem firstRem lastDay deleteKeys l).1.map
        (fun op => (op, ok op)),
       (syncLoop existing locAddr defRem firstRem lastDay deleteKeys l).2) := by
  induction l generalizing lastDay deleteKeys with
  | nil => rfl
  | cons rdv rest ih =>
    simp only [syncLoopRun, syncLoop]
    cases hlk : List.lookup (syncKeyFor rdv) existing with
    | none =>
      simp only [hlk, ih _ _, List.map_cons]
    | some ev =>
      simp only [hlk]
      by_cases hc : pyStrip ev.location ≠ locAddr ∨
          (buildEventBody rdv (syncKeyFor rdv) locAddr
            (reminderForDay defRem firstRem lastDay (dayOf rdv))).reminders ≠ ev.reminders
      · rw [if_pos hc, if_pos hc]
        simp only [ih _ _, List.map_cons]
      · rw [if_neg hc, if_neg hc]
        exact ih _ _

theorem synchronizeWeekRun_fst (ok : PlanOp → Bool) (cfg : SyncConfig)
    (appointments : List Rdv) (existing : List (String × GEvent)) :
    (synchronizeWeekRun ok cfg appointments existing).map Prod.fst =
      synchronizeWeek cfg appointments existing := by
  simp only [synchronizeWeekRun, synchronizeWeek]
  rw [syncLoopRun_eq]
  simp only [List.map_append, List.map_map]
  congr 1
  · have hcomp : (Prod.fst ∘ fun op : PlanOp => (op, ok op)) = id := rfl
    rw [hcomp, List.map_id]
  · rw [List.map_filterMap]
    apply List.filterMap_congr
    intro k _
    cases List.lookup k existing <;> simp

/-! ## Concrete fixtures used by witnesses and counterexamples -/

/-- A follow-up appointment at 09:00 on day A. -/
def rdvMorning : Rdv :=
  { start_date := "2025-01-06T09:00", end_date := "2025-01-06T09:30",
    new_patient := false, status := "confirmed", summary := "Suivi" }

/-- A new-patient appointment at 11:00 on day A. -/
def rdvNoon : Rdv :=
  { start_date := "2025-01-06T11:00", end_date := "2025-01-06T11:30",
    new_patient := true, status := "confirmed", summary := "Nouveau patient" }

/-- A follow-up appointment at 09:30 on day B. -/
def rdvNextDay : Rdv :=
  { start_date := "2025-01-07T09:30", end_date := "2025-01-07T10:00",
    new_patient := false, status := "confirmed", summary := "Suivi" }

/-- A tracked destination event for `rdvMorning`'s key whose location differs
from the configured one. -/
def evMorningStale : GEvent :=
  { id := "e1", summary := "Suivi [confirmed]",
    description := "Synchronisé depuis Doctolib. SYNC_KEY: " ++ syncKeyFor rdvMorning,
    location := "Elsewhere", reminders := .useDefault }

/-- A tracked destination event under an unmatched key. -/
def evOrphan : GEvent :=
  { id := "e9", summary := "Suivi [confirmed]",
    description := "Synchronisé depuis Doctolib. SYNC_KEY: old-key",
    location := "", reminders := .useDefault }

/-- A configuration with no location and no first-of-day reminder. -/
def cfgPlain : SyncConfig :=
  { notification := 30, first_of_day := 0, localisation := "" }

/-- A fetch oracle whose first week raises an `HTTPError` and whose later
weeks succeed with no appointments. -/
def fetchFailFirst : Nat → FetchOutcome :=
  fun i => if i = 0 then .httpError else .ok [] 0

/-! ## Claim C1 -/

/-- Claim C1, counterexample: with two configured weeks and a fetch failure in
the first week only (the second week's fetch would succeed), `main`'s loop
processes no further week: the run is aborted, week 1 is not synchronized,
contradicting the claim that the failure skips only that week and the run
continues. -/
theorem C1_counterexample :
    fetchFailFirst 1 = .ok [] 0 ∧
      runWeeks fetchFailFirst 0 2 = [] ∧
      1 ∉ runWeeks fetchFailFirst 0 2 := by
  decide

/-- Claim C1 (amended): if fetching the source appointments fails for one
week, the whole run stops there: exactly the weeks before the first failing
week are processed, and neither the failing week nor any subsequent week is. -/
theorem C1_fetch_failure_aborts_run (fetch : Nat → FetchOutcome)
    (start n j : Nat) (hj : j < n)
    (hok : ∀ i, i < j → fetch (start + i) ≠ .httpError)
    (hfail : fetch (start + j) = .httpError) :
    runWeeks fetch start n = (List.range j).map (fun i => start + i) := by
  induction j generalizing start n with
  | zero =>
    cases n with
    | zero => omega
    | succ m =>
      rw [Nat.add_zero] at hfail
      simp only [runWeeks, hfail]
      simp
  | succ j ih =>
    cases n with
    | zero => omega
    | succ m =>
      have h0 : fetch start ≠ .httpError := by
        have := hok 0 (by omega)
        simpa using this
      simp only [runWeeks]
      cases hf : fetch start with
      | httpError => exact absurd hf h0
      | ok l c =>
        have hok' : ∀ i, i < j → fetch (start + 1 + i) ≠ .httpError := by
          intro i hi
          have h := hok (i + 1) (by omega)
          have harg : start + (i + 1) = start + 1 + i := by omega
          rwa [harg] at h
        have hfail' : fetch (start + 1 + j) = .httpError := by
          have harg : start + (j + 1) = start + 1 + j := by omega
          rwa [harg] at hfail
        rw [ih (start + 1) m (by omega) hok' hfail']
        rw [List.range_succ_eq_map]
        simp only [List.map_cons, Nat.add_zero, List.map_map]
        congr 1
        apply List.map_congr_left
        intro a _
        simp only [Function.comp_apply]
        omega

/-- Claim C1 (amended) witness: weeks 2..5 configured, fetch fails at week 3;
only week 2 is processed. -/
theorem C1_fetch_failure_aborts_run_witness :
    runWeeks (fun i => if i = 3 then .httpError else .ok [] 0) 2 4 = [2] := by
  have h := C1_fetch_failure_aborts_run
    (fun i => if i = 3 then .httpError else .ok [] 0) 2 4 1
    (by omega) (by decide) (by decide)
  simpa using h

/-! ## Claim C2 -/

/-- Claim C2, counterexample: with one appointment matching a stale tracked
event (hence an update) and a later new appointment (hence a create), the
issued sequence is update-then-create: an update call precedes a create call
of the same plan, contradicting the claimed creates-then-updates-then-deletes
order. -/
theorem C2_counterexample :
    (synchronizeWeek cfgPlain [rdvMorning, rdvNoon]
        [(syncKeyFor rdvMorning, evMorningStale)]).map PlanOp.isUpdate =
      [true, false] ∧
    (synchronizeWeek cfgPlain [rdvMorning, rdvNoon]
        [(syncKeyFor rdvMorning, evMorningStale)]).map PlanOp.isCreate =
      [false, true] := by
  decide

theorem emitOp_not_isDelete (ex : List (String × GEvent)) (loc : String)
    (m : Int) (r : Rdv) : ∀ op ∈ emitOp ex loc m r, op.isDelete = false := by
  intro op hop
  simp only [emitOp] at hop
  cases hlk : List.lookup (syncKeyFor r) ex with
  | none =>
    rw [hlk] at hop
    simp only [List.mem_singleton] at hop
    rw [hop]
    rfl
  | some ev =>
    rw [hlk] at hop
    have hop2 : op ∈ (if pyStrip ev.location ≠ loc ∨
        (buildEventBody r (syncKeyFor r) loc m).reminders ≠ ev.reminders then
          [PlanOp.update (syncKeyFor r) ev.id (buildEventBody r (syncKeyFor r) loc m)]
        else []) := hop
    by_cases hc : pyStrip ev.location ≠ loc ∨
        (buildEventBody r (syncKeyFor r) loc m).reminders ≠ ev.reminders
    · rw [if_pos hc] at hop2
      simp only [List.mem_singleton] at hop2
      rw [hop2]
      rfl
    · rw [if_neg hc] at hop2
      simp at hop2

theorem syncLoop_fst_not_isDelete (existing : List (String × GEvent))
    (locAddr : String) (defRem firstRem : Int) (lastDay : Option String)
    (deleteKeys : List String) (l : List Rdv) :
    ∀ op ∈ (syncLoop existing locAddr defRem firstRem lastDay deleteKeys l).1,
      op.isDelete = false := by
  intro op hop
  rw [syncLoop_fst] at hop
  obtain ⟨ops, hops, hmem⟩ := List.mem_flatten.mp hop
  obtain ⟨pr, _, hpr⟩ := List.mem_map.mp hops
  rw [← hpr] at hmem
  exact emitOp_not_isDelete _ _ _ _ op hmem

theorem dropWhile_append_of_all {α : Type} (p : α → Bool) (A B : List α)
    (h : ∀ a ∈ A, p a = true) :
    (A ++ B).dropWhile p = B.dropWhile p := by
  induction A with
  | nil => rfl
  | cons a t ih =>
    rw [List.cons_append, List.dropWhile_cons, h a (List.mem_cons_self _ _), if_pos rfl]
    exact ih (fun x hx => h x (List.mem_cons_of_mem _ hx))

/-- Claim C2 (amended): the loop issues creates and updates interleaved, in
ascending appointment order, and every delete is issued after every create and
update: once the first delete appears in the issued sequence, everything after
it is a delete. -/
theorem C2_deletes_come_last (cfg : SyncConfig) (appointments : List Rdv)
    (existing : List (String × GEvent)) :
    ((synchronizeWeek cfg appointments existing).dropWhile
        (fun op => !op.isDelete)).all (fun op => op.isDelete) := by
  simp only [synchronizeWeek]
  set A := (syncLoop existing (pyStrip cfg.localisation) cfg.notification
    cfg.first_of_day none (existing.map Prod.fst)
    (sortAppointments appointments)).1 with hA
  set B := (syncLoop existing (pyStrip cfg.localisation) cfg.notification
    cfg.first_of_day none (existing.map Prod.fst)
    (sortAppointments appointments)).2.filterMap
    (fun k => (List.lookup k existing).map (fun ev => PlanOp.delete k ev.id)) with hB
  have hBdel : ∀ op ∈ B, op.isDelete = true := by
    intro op hop
    rw [hB] at hop
    obtain ⟨k, _, hk⟩ := List.mem_filterMap.mp hop
    cases hlk : List.lookup k existing with
    | none => rw [hlk] at hk; simp at hk
    | some ev =>
      rw [hlk] at hk
      have hk2 : PlanOp.delete k ev.id = op := by simpa using hk
      rw [← hk2]
      rfl
  rw [dropWhile_append_of_all _ _ _ (fun op hop => by
    have := syncLoop_fst_not_isDelete existing (pyStrip cfg.localisation)
      cfg.notification cfg.first_of_day none (existing.map Prod.fst)
      (sortAppointments appointments) op (by rw [hA] at hop; exact hop)
    simp [this])]
  rw [List.all_eq_true]
  intro op hop
  exact hBdel op (List.Sublist.mem hop (List.dropWhile_sublist _))

/-! ## Claim C7 -/

/-- Claim C7, counterexample: reminder minutes are Python ints, and the guard
at line 286 is `reminder_minutes > 0`, not `!= 0`; with assigned minutes `-1`
(a nonzero value, reachable from a negative `notification` config value) the
projected payload is `{useDefault: true}` and not an explicit override of
`-1`, contradicting the claim that every nonzero assigned value yields exactly
one explicit override. -/
theorem C7_counterexample :
    ((-1 : Int) ≠ 0) ∧
      (buildEventBody rdvMorning "k" "" (-1)).reminders = RemCfg.useDefault ∧
      (buildEventBody rdvMorning "k" "" (-1)).reminders ≠
        RemCfg.overrides [("popup", -1)] := by
  decide

/-- Claim C7 (amended): an appointment whose assigned minutes is positive
projects to exactly one explicit popup override of the assigned minutes; an
appointment whose assigned minutes is zero or negative projects to
`{useDefault: true}`; and no projected payload ever carries an explicit
override of `0`. -/
theorem C7_reminder_projection (rdv : Rdv) (k loc : String) (m : Int) :
    (m ≤ 0 → (buildEventBody rdv k loc m).reminders = RemCfg.useDefault) ∧
    (0 < m → (buildEventBody rdv k loc m).reminders =
      RemCfg.overrides [("popup", m)]) ∧
    (∀ ms, (buildEventBody rdv k loc m).reminders = RemCfg.overrides ms →
      ∀ meth, (meth, (0 : Int)) ∉ ms) := by
  unfold buildEventBody
  by_cases h : m > 0
  · refine ⟨fun hle => absurd h (by omega), fun _ => by simp [h], ?_⟩
    intro ms hms meth
    simp only [if_pos h, RemCfg.overrides.injEq] at hms
    rw [← hms]
    intro hmem
    simp only [List.mem_singleton, Prod.mk.injEq] at hmem
    omega
  · refine ⟨fun _ => by simp [h], fun hlt => absurd hlt h, ?_⟩
    intro ms hms meth
    simp only [if_neg h] at hms
    exact absurd hms (by simp)

/-- Claim C7 (amended) witness: minutes 0 gives the use-default sentinel,
minutes 45 gives one popup override of 45. -/
theorem C7_reminder_projection_witness :
    (buildEventBody rdvMorning "k" "" 0).reminders = RemCfg.useDefault ∧
      (buildEventBody rdvMorning "k" "Clinic" 45).reminders =
        RemCfg.overrides [("popup", 45)] :=
  ⟨(C7_reminder_projection rdvMorning "k" "" 0).1 (by decide),
   (C7_reminder_projection rdvMorning "k" "Clinic" 45).2.1 (by decide)⟩

/-! ## Claim C9 -/

/-- Claim C9: per-operation gateway failures are isolated.  Whatever subset of
gateway calls fails (`ok` is the failure oracle; a failing call raises
`HttpError`, which the source catches and prints per operation), the attempted
operation sequence is exactly the full plan — identical to the sequence under
any other failure pattern — and each operation is reported individually with
its own outcome. -/
theorem C9_per_operation_failure_isolated (ok : PlanOp → Bool)
    (cfg : SyncConfig) (appointments : List Rdv)
    (existing : List (String × GEvent)) :
    ((synchronizeWeekRun ok cfg appointments existing).map Prod.fst =
      synchronizeWeek cfg appointments existing) ∧
    (∀ p ∈ synchronizeWeekRun ok cfg appointments existing, p.2 = ok p.1) := by
  refine ⟨synchronizeWeekRun_fst ok cfg appointments existing, ?_⟩
  intro p hp
  simp only [synchronizeWeekRun] at hp
  rw [syncLoopRun_eq] at hp
  rcases List.mem_append.mp hp with hp1 | hp1
  · obtain ⟨op, _, hop⟩ := List.mem_map.mp hp1
    rw [← hop]
  · obtain ⟨k, _, hk⟩ := List.mem_filterMap.mp hp1
    cases hlk : List.lookup k existing with
    | none => rw [hlk] at hk; simp at hk
    | some ev =>
      rw [hlk] at hk
      have hk2 : (PlanOp.delete k ev.id, ok (PlanOp.delete k ev.id)) = p := by
        simpa using hk
      rw [← hk2]

/-- Claim C9 witness: a concrete run in which the only delete call fails;
the attempted sequence still equals the full plan and the failure is reported
on that operation. -/
theorem C9_per_operation_failure_isolated_witness :
    ((synchronizeWeekRun (fun _ => false) cfgPlain [] [("old-key", evOrphan)]).map
        Prod.fst = synchronizeWeek cfgPlain [] [("old-key", evOrphan)]) ∧
      ((PlanOp.delete "old-key" "e9", false) ∈
        synchronizeWeekRun (fun _ => false) cfgPlain [] [("old-key", evOrphan)] →
          (false : Bool) = (fun _ => false) (PlanOp.delete "old-key" "e9")) :=
  ⟨(C9_per_operation_failure_isolated (fun _ => false) cfgPlain []
      [("old-key", evOrphan)]).1,
   fun hmem => by
     exact (C9_per_operation_failure_isolated (fun _ => false) cfgPlain []
       [("old-key", evOrphan)]).2 _ hmem⟩

/-! ## Claim C10 -/

theorem filterMap_lookup_keys {α : Type} (ex : List (String × GEvent))
    (hnd : (ex.map Prod.fst).Nodup) (f : String → GEvent → α) :
    (ex.map Prod.fst).filterMap
        (fun k => (List.lookup k ex).map (fun v => f k v)) =
      ex.map (fun p => f p.1 p.2) := by
  rw [List.filterMap_map]
  have hcong : ∀ p ∈ ex,
      ((fun k => (List.lookup k ex).map (fun v => f k v)) ∘ Prod.fst) p =
        some (f p.1 p.2) := by
    intro p hp
    simp only [Function.comp_apply]
    rw [lookup_eq_some_of_nodup hnd (by exact hp)]
    rfl
  rw [List.filterMap_congr hcong]
  exact congrFun (List.filterMap_eq_map _) ex

/-- Claim C10: if the configured cookie file does not exist,
`fetch_appointments` returns the empty list with ignored-count 0 instead of
failing (first conjunct; no HTTP call is even attempted, so the result is the
same whatever the feed would answer), which is indistinguishable from a week
whose feed genuinely returns no appointments (second conjunct); reconciling a
week with no appointments then issues exactly one delete per tracked existing
event (third conjunct). -/
theorem C10_missing_cookie_file_deletes_everything (cfg : SyncConfig)
    (ex : List (String × GEvent)) (httpOk : Bool) (apiData : List RawAppt)
    (c : String) (hnd : (ex.map Prod.fst).Nodup) :
    fetchAppointments true none httpOk apiData = .ok [] 0 ∧
    fetchAppointments true (some c) true [] = .ok [] 0 ∧
    synchronizeWeek cfg [] ex = ex.map (fun p => PlanOp.delete p.1 p.2.id) := by
  refine ⟨rfl, rfl, ?_⟩
  simp only [synchronizeWeek]
  rw [show sortAppointments [] = [] from rfl]
  rw [show syncLoop ex (pyStrip cfg.localisation) cfg.notification
    cfg.first_of_day none (ex.map Prod.fst) [] = ([], ex.map Prod.fst) from rfl]
  simp only [List.nil_append]
  exact filterMap_lookup_keys ex hnd _

/-- Claim C10 witness: a concrete tracked event is deleted when the week's
appointment list is empty, and the missing-cookie fetch result is that empty
list. -/
theorem C10_missing_cookie_file_deletes_everything_witness :
    fetchAppointments true none true [⟨some "x", some "y", false, none⟩] =
        .ok [] 0 ∧
      synchronizeWeek cfgPlain [] [("old-key", evOrphan)] =
        [PlanOp.delete "old-key" "e9"] :=
  ⟨(C10_missing_cookie_file_deletes_everything cfgPlain [("old-key", evOrphan)]
      true [⟨some "x", some "y", false, none⟩] "c" (by decide)).1,
   (C10_missing_cookie_file_deletes_everything cfgPlain [("old-key", evOrphan)]
      true [⟨some "x", some "y", false, none⟩] "c" (by decide)).2.2⟩

/-! ## Claim C6 -/

theorem reminderScan_getD (defRem firstRem : Int) (l : List Rdv)
    (lastDay : Option String) (i : Nat) (h : i < l.length) :
    (reminderScan defRem firstRem lastDay l).getD i 0 =
      if ((if i = 0 then lastDay ≠ some (dayOf (l.getD 0 default))
           else dayOf (l.getD i default) ≠ dayOf (l.getD (i - 1) default)) ∧
          0 < firstRem) then firstRem else defRem := by
  induction l generalizing lastDay i with
  | nil => simp at h
  | cons r t ih =>
    cases i with
    | zero =>
      simp only [reminderScan, List.getD_cons_zero, reminderForDay]
      by_cases h1 : lastDay ≠ some (dayOf r)
      · by_cases h2 : 0 < firstRem
        · simp [h1, h2]
        · simp [h1, h2]
      · by_cases h2 : 0 < firstRem
        · simp [h1, h2]
        · simp [h1, h2]
    | succ j =>
      have hjt : j < t.length := by simpa using h
      rw [reminderScan]
      rw [List.getD_cons_succ]
      rw [ih (some (dayOf r)) j hjt]
      apply if_congr _ rfl rfl
      apply and_congr_left'
      cases j with
      | zero => simp [ne_comm]
      | succ jj => simp

/-- Claim C6: after the stable ascending sort by start time, the scan assigns
`firstOfDayMinutes` to an appointment exactly when it is the first of its
calendar day in the scan (its day differs from the previous appointment's
day, or it is the very first appointment) and `firstOfDayMinutes > 0`, and
`defaultMinutes` otherwise; in particular appointments at 09:00 and 11:00 on
day A and 09:30 on day B with defaults 30/60 receive minutes [60, 30, 60]. -/
theorem C6_first_of_day_policy :
    (∀ (defRem firstRem : Int) (l : List Rdv) (i : Nat), i < l.length →
      (reminderScan defRem firstRem none l).getD i 0 =
        if ((i = 0 ∨ dayOf (l.getD i default) ≠ dayOf (l.getD (i - 1) default)) ∧
            0 < firstRem) then firstRem else defRem) ∧
    assignedMinutes { notification := 30, first_of_day := 60, localisation := "" }
      [rdvMorning, rdvNoon, rdvNextDay] = [60, 30, 60] := by
  constructor
  · intro defRem firstRem l i h
    rw [reminderScan_getD defRem firstRem l none i h]
    apply if_congr _ rfl rfl
    apply and_congr_left'
    cases i with
    | zero => simp
    | succ j => simp
  · decide

/-- Claim C6 witness: the characterization applied to the third appointment of
the concrete example (first of day B: it gets 60). -/
theorem C6_first_of_day_policy_witness :
    (reminderScan 30 60 none [rdvMorning, rdvNoon, rdvNextDay]).getD 2 0 =
      if (((2 : Nat) = 0 ∨
          dayOf ([rdvMorning, rdvNoon, rdvNextDay].getD 2 default) ≠
            dayOf ([rdvMorning, rdvNoon, rdvNextDay].getD 1 default)) ∧
          (0 : Int) < 60) then 60 else 30 :=
  C6_first_of_day_policy.1 30 60 [rdvMorning, rdvNoon, rdvNextDay] 2 (by decide)

/-! ## Claim C5 -/

theorem bool_eq_of_iff {a b : Bool} (h : a = true ↔ b = true) : a = b := by
  cases a <;> cases b <;> simp_all

theorem filterMap_lookup_of_mem {α : Type} (ex sub : List (String × GEvent))
    (hnd : (ex.map Prod.fst).Nodup) (hsub : ∀ p ∈ sub, p ∈ ex)
    (f : String → GEvent → α) :
    (sub.map Prod.fst).filterMap
        (fun k => (List.lookup k ex).map (fun v => f k v)) =
      sub.map (fun p => f p.1 p.2) := by
  rw [List.filterMap_map]
  have hcong : ∀ p ∈ sub,
      ((fun k => (List.lookup k ex).map (fun v => f k v)) ∘ Prod.fst) p =
        some (f p.1 p.2) := by
    intro p hp
    simp only [Function.comp_apply]
    rw [lookup_eq_some_of_nodup hnd (by exact hsub p hp)]
    rfl
  rw [List.filterMap_congr hcong]
  exact congrFun (List.filterMap_eq_map (fun p => f p.1 p.2)) sub

theorem planDeleteKeys_eq_map_key (ops : List PlanOp) :
    planDeleteKeys ops = (planDeleteOps ops).map PlanOp.key := by
  induction ops with
  | nil => rfl
  | cons op t ih =>
    cases op with
    | create k b => simpa [planDeleteKeys, planDeleteOps, PlanOp.isDelete] using ih
    | update k i b => simpa [planDeleteKeys, planDeleteOps, PlanOp.isDelete] using ih
    | delete k i =>
      simpa [planDeleteKeys, planDeleteOps, PlanOp.isDelete, PlanOp.key] using ih

theorem synchronizeWeek_delete_ops (cfg : SyncConfig) (apps : List Rdv)
    (ex : List (String × GEvent)) (hnd : (ex.map Prod.fst).Nodup) :
    planDeleteOps (synchronizeWeek cfg apps ex) =
      (ex.filter (fun p => !(apps.any (fun r => syncKeyFor r == p.1)))).map
        (fun p => PlanOp.delete p.1 p.2.id) := by
  simp only [synchronizeWeek, planDeleteOps]
  rw [List.filter_append]
  have hA : (syncLoop ex (pyStrip cfg.localisation) cfg.notification
      cfg.first_of_day none (ex.map Prod.fst)
      (sortAppointments apps)).1.filter (fun op => op.isDelete) = [] := by
    rw [List.filter_eq_nil_iff]
    intro op hop
    have := syncLoop_fst_not_isDelete ex (pyStrip cfg.localisation)
      cfg.notification cfg.first_of_day none (ex.map Prod.fst)
      (sortAppointments apps) op hop
    simp [this]
  rw [hA, List.nil_append]
  have hD : ∀ op ∈ (syncLoop ex (pyStrip cfg.localisation) cfg.notification
      cfg.first_of_day none (ex.map Prod.fst)
      (sortAppointments apps)).2.filterMap
        (fun k => (List.lookup k ex).map (fun ev => PlanOp.delete k ev.id)),
      op.isDelete = true := by
    intro op hop
    obtain ⟨k, _, hk⟩ := List.mem_filterMap.mp hop
    cases hlk : List.lookup k ex with
    | none => rw [hlk] at hk; simp at hk
    | some ev =>
      rw [hlk] at hk
      have hk2 : PlanOp.delete k ev.id = op := by simpa using hk
      rw [← hk2]
      rfl
  rw [List.filter_eq_self.mpr hD]
  rw [syncLoop_snd]
  have hfc : ∀ k ∈ ex.map Prod.fst,
      ((sortAppointments apps).all (fun r =>
        !(syncKeyFor r == k && (List.lookup (syncKeyFor r) ex).isSome))) =
      (!(apps.any (fun r => syncKeyFor r == k))) := by
    intro k hk
    apply bool_eq_of_iff
    constructor
    · intro hall
      simp only [Bool.not_eq_true', List.any_eq_false]
      intro r hr
      have hrs : r ∈ sortAppointments apps := mem_sortAppointments.mpr hr
      have hterm := List.all_eq_true.mp hall r hrs
      simp only [Bool.not_eq_true', Bool.and_eq_false_iff] at hterm
      rcases hterm with h1 | h1
      · simp [h1]
      · intro hcontra
        have hkk : syncKeyFor r = k := by simpa using hcontra
        rw [hkk] at h1
        have := lookup_isSome_of_mem_keys (m := ex) hk
        rw [h1] at this
        exact absurd this (by simp)
    · intro hnone
      rw [List.all_eq_true]
      intro r hrs
      have hr : r ∈ apps := mem_sortAppointments.mp hrs
      simp only [Bool.not_eq_true', List.any_eq_false] at hnone
      have := hnone r hr
      have hfalse : (syncKeyFor r == k) = false := by simpa using this
      simp [hfalse]
  rw [List.filter_congr hfc]
  rw [List.filter_map]
  exact filterMap_lookup_of_mem ex _ hnd
    (fun p hp => List.mem_of_mem_filter hp) _

/-- Claim C5: the delete operations issued by `synchronize_week` are exactly
one delete per existing-map entry whose key is matched by no appointment's
identity key, each resolved to that entry's event id (first conjunct, an
equality of the full delete sequence); in particular every such key appears
exactly once among the deletion targets (second conjunct). -/
theorem C5_deletion_completeness (cfg : SyncConfig) (apps : List Rdv)
    (ex : List (String × GEvent)) (hnd : (ex.map Prod.fst).Nodup) :
    planDeleteOps (synchronizeWeek cfg apps ex) =
      (ex.filter (fun p => !(apps.any (fun r => syncKeyFor r == p.1)))).map
        (fun p => PlanOp.delete p.1 p.2.id) ∧
    (∀ k, k ∈ ex.map Prod.fst → (∀ r ∈ apps, syncKeyFor r ≠ k) →
      (planDeleteKeys (synchronizeWeek cfg apps ex)).count k = 1) := by
  refine ⟨synchronizeWeek_delete_ops cfg apps ex hnd, ?_⟩
  intro k hk hnomatch
  rw [planDeleteKeys_eq_map_key, synchronizeWeek_delete_ops cfg apps ex hnd]
  rw [List.map_map]
  have hkey : (PlanOp.key ∘ fun p : String × GEvent => PlanOp.delete p.1 p.2.id) =
      Prod.fst := rfl
  rw [hkey]
  have hnodup : ((ex.filter
      (fun p => !(apps.any (fun r => syncKeyFor r == p.1)))).map Prod.fst).Nodup :=
    List.Nodup.sublist (List.Sublist.map Prod.fst (List.filter_sublist ex)) hnd
  have hmem : k ∈ (ex.filter
      (fun p => !(apps.any (fun r => syncKeyFor r == p.1)))).map Prod.fst := by
    obtain ⟨p, hp, hpk⟩ := List.mem_map.mp hk
    apply List.mem_map.mpr
    refine ⟨p, ?_, hpk⟩
    apply List.mem_filter.mpr
    refine ⟨hp, ?_⟩
    simp only [Bool.not_eq_true', List.any_eq_false]
    intro r hr
    have := hnomatch r hr
    rw [hpk]
    simpa using this
  exact List.count_eq_one_of_mem hnodup hmem

/-- Claim C5 witness: a single tracked event under an unmatched key is deleted
exactly once. -/
theorem C5_deletion_completeness_witness :
    planDeleteOps (synchronizeWeek cfgPlain [rdvMorning] [("old-key", evOrphan)]) =
      [PlanOp.delete "old-key" "e9"] ∧
    (planDeleteKeys (synchronizeWeek cfgPlain [rdvMorning]
      [("old-key", evOrphan)])).count "old-key" = 1 := by
  have h := C5_deletion_completeness cfgPlain [rdvMorning]
    [("old-key", evOrphan)] (by decide)
  refine ⟨?_, h.2 "old-key" (by decide) (by decide)⟩
  rw [h.1]
  decide

/-! ## Claim C8 -/

/-- A destination event whose description carries no extractable sync key. -/
def evUnmarked : GEvent :=
  { id := "e0", summary := "Réunion", description := "pas de marqueur",
    location := "", reminders := .absent }

theorem getExistingEvents_fold_mem (events : List GEvent)
    (acc : List (String × GEvent)) :
    ∀ p ∈ events.foldl
      (fun m ev =>
        match rawSyncKey ev.description with
        | some k => if k ≠ "" then dictInsert m k ev else m
        | none => m) acc,
      p ∈ acc ∨ (p.2 ∈ events ∧ rawSyncKey p.2.description = some p.1 ∧ p.1 ≠ "") := by
  induction events generalizing acc with
  | nil => intro p hp; exact Or.inl hp
  | cons ev t ih =>
    intro p hp
    rw [List.foldl_cons] at hp
    rcases ih _ p hp with hstep | hrest
    · cases hke : rawSyncKey ev.description with
      | none =>
        rw [hke] at hstep
        exact Or.inl hstep
      | some k =>
        rw [hke] at hstep
        have hstep2 : p ∈ (if k ≠ "" then dictInsert acc k ev else acc) := hstep
        by_cases hk0 : k ≠ ""
        · rw [if_pos hk0] at hstep2
          rcases mem_of_mem_dictInsert hstep2 with h1 | h1
          · exact Or.inl h1
          · right
            rw [h1]
            exact ⟨List.mem_cons_self _ _, hke, hk0⟩
        · rw [if_neg hk0] at hstep2
          exact Or.inl hstep2
    · exact Or.inr ⟨List.mem_cons_of_mem _ hrest.1, hrest.2⟩

theorem getExistingEvents_mem (events : List GEvent) :
    ∀ p ∈ getExistingEvents events,
      p.2 ∈ events ∧ rawSyncKey p.2.description = some p.1 ∧ p.1 ≠ "" := by
  intro p hp
  rcases getExistingEvents_fold_mem events [] p hp with h | h
  · simp at h
  · exact h

theorem emitOp_cases (ex : List (String × GEvent)) (loc : String) (m : Int)
    (r : Rdv) (op : PlanOp) (hop : op ∈ emitOp ex loc m r) :
    (List.lookup (syncKeyFor r) ex = none ∧
      op = PlanOp.create (syncKeyFor r) (buildEventBody r (syncKeyFor r) loc m)) ∨
    (∃ ev, List.lookup (syncKeyFor r) ex = some ev ∧
      op = PlanOp.update (syncKeyFor r) ev.id (buildEventBody r (syncKeyFor r) loc m) ∧
      (pyStrip ev.location ≠ loc ∨
        (buildEventBody r (syncKeyFor r) loc m).reminders ≠ ev.reminders)) := by
  simp only [emitOp] at hop
  cases hlk : List.lookup (syncKeyFor r) ex with
  | none =>
    rw [hlk] at hop
    simp only [List.mem_singleton] at hop
    exact Or.inl ⟨rfl, hop⟩
  | some ev =>
    rw [hlk] at hop
    have hop2 : op ∈ (if pyStrip ev.location ≠ loc ∨
        (buildEventBody r (syncKeyFor r) loc m).reminders ≠ ev.reminders then
          [PlanOp.update (syncKeyFor r) ev.id (buildEventBody r (syncKeyFor r) loc m)]
        else []) := hop
    by_cases hc : pyStrip ev.location ≠ loc ∨
        (buildEventBody r (syncKeyFor r) loc m).reminders ≠ ev.reminders
    · rw [if_pos hc] at hop2
      simp only [List.mem_singleton] at hop2
      exact Or.inr ⟨ev, rfl, hop2, hc⟩
    · rw [if_neg hc] at hop2
      simp at hop2

theorem synchronizeWeek_targetId_mem (cfg : SyncConfig) (apps : List Rdv)
    (ex : List (String × GEvent)) :
    ∀ op ∈ synchronizeWeek cfg apps ex, ∀ i, op.targetId = some i →
      ∃ p ∈ ex, p.2.id = i := by
  intro op hop i hid
  simp only [synchronizeWeek] at hop
  rcases List.mem_append.mp hop with hop1 | hop1
  · rw [syncLoop_fst] at hop1
    obtain ⟨ops, hops, hmem⟩ := List.mem_flatten.mp hop1
    obtain ⟨pr, _, hpr⟩ := List.mem_map.mp hops
    rw [← hpr] at hmem
    rcases emitOp_cases _ _ _ _ op hmem with ⟨_, hcr⟩ | ⟨ev, hlk, hup, _⟩
    · rw [hcr] at hid
      simp [PlanOp.targetId] at hid
    · rw [hup] at hid
      simp only [PlanOp.targetId, Option.some.injEq] at hid
      exact ⟨(syncKeyFor pr.1, ev), mem_of_lookup_eq_some hlk, hid⟩
  · obtain ⟨k, _, hk⟩ := List.mem_filterMap.mp hop1
    cases hlk : List.lookup k ex with
    | none => rw [hlk] at hk; simp at hk
    | some ev =>
      rw [hlk] at hk
      have hk2 : PlanOp.delete k ev.id = op := by simpa using hk
      rw [← hk2] at hid
      simp only [PlanOp.targetId, Option.some.injEq] at hid
      exact ⟨(k, ev), mem_of_lookup_eq_some hlk, hid⟩

/-- Claim C8: an existing destination event whose description has no
extractable sync key (no marker, or an empty key after the marker) is absent
from the existing-event map, and no update or delete issued by the
reconciliation targets its event id (assuming destination event ids are
unique, as Google Calendar guarantees): such events are untouched by every
run. -/
theorem C8_unextractable_event_untouched (cfg : SyncConfig) (apps : List Rdv)
    (events : List GEvent) (e : GEvent) (he : e ∈ events)
    (hids : (events.map GEvent.id).Nodup)
    (hkey : rawSyncKey e.description = none ∨ rawSyncKey e.description = some "") :
    (∀ p ∈ getExistingEvents events, p.2.id ≠ e.id) ∧
    (∀ op ∈ synchronizeWeek cfg apps (getExistingEvents events),
      op.targetId ≠ some e.id) := by
  have hpart1 : ∀ p ∈ getExistingEvents events, p.2.id ≠ e.id := by
    intro p hp hpe
    obtain ⟨hpev, hpkey, hpne⟩ := getExistingEvents_mem events p hp
    have hpe2 : p.2 = e :=
      List.inj_on_of_nodup_map hids hpev he hpe
    rw [hpe2] at hpkey
    rcases hkey with h | h
    · rw [h] at hpkey; exact Option.noConfusion hpkey
    · rw [h] at hpkey
      exact hpne (Option.some.inj hpkey).symm
  refine ⟨hpart1, ?_⟩
  intro op hop hid
  obtain ⟨p, hp, hpid⟩ := synchronizeWeek_targetId_mem cfg apps
    (getExistingEvents events) op hop e.id hid
  exact hpart1 p hp hpid

/-- Claim C8 witness: with one unmarked event and one tracked event, the
unmarked event is not the tracked map entry and the single issued delete does
not target its id. -/
theorem C8_unextractable_event_untouched_witness :
    evOrphan.id ≠ evUnmarked.id ∧
      (PlanOp.delete "old-key" "e9").targetId ≠ some evUnmarked.id :=
  ⟨(C8_unextractable_event_untouched cfgPlain [] [evUnmarked, evOrphan]
      evUnmarked (by decide) (by decide) (by decide)).1
      ("old-key", evOrphan) (by decide),
   (C8_unextractable_event_untouched cfgPlain [] [evUnmarked, evOrphan]
      evUnmarked (by decide) (by decide) (by decide)).2
      (PlanOp.delete "old-key" "e9") (by decide)⟩

/-! ## Claim C4 -/

theorem mem_planCreateKeys {ops : List PlanOp} {k : String} :
    k ∈ planCreateKeys ops ↔ ∃ b, PlanOp.create k b ∈ ops := by
  unfold planCreateKeys
  rw [List.mem_filterMap]
  constructor
  · rintro ⟨op, hop, hk⟩
    cases op with
    | create k' b => simp only [Option.some.injEq] at hk; exact ⟨b, hk ▸ hop⟩
    | update k' i b => simp at hk
    | delete k' i => simp at hk
  · rintro ⟨b, hb⟩
    exact ⟨PlanOp.create k b, hb, rfl⟩

theorem mem_planUpdateKeys {ops : List PlanOp} {k : String} :
    k ∈ planUpdateKeys ops ↔ ∃ i b, PlanOp.update k i b ∈ ops := by
  unfold planUpdateKeys
  rw [List.mem_filterMap]
  constructor
  · rintro ⟨op, hop, hk⟩
    cases op with
    | create k' b => simp at hk
    | update k' i b => simp only [Option.some.injEq] at hk; exact ⟨i, b, hk ▸ hop⟩
    | delete k' i => simp at hk
  · rintro ⟨i, b, hb⟩
    exact ⟨PlanOp.update k i b, hb, rfl⟩

theorem mem_planDeleteKeys {ops : List PlanOp} {k : String} :
    k ∈ planDeleteKeys ops ↔ ∃ i, PlanOp.delete k i ∈ ops := by
  unfold planDeleteKeys
  rw [List.mem_filterMap]
  constructor
  · rintro ⟨op, hop, hk⟩
    cases op with
    | create k' b => simp at hk
    | update k' i b => simp at hk
    | delete k' i => simp only [Option.some.injEq] at hk; exact ⟨i, hk ▸ hop⟩
  · rintro ⟨i, hb⟩
    exact ⟨PlanOp.delete k i, hb, rfl⟩

theorem zip_key_unique {l : List Rdv} {s : List Int}
    (hnd : (l.map syncKeyFor).Nodup) {r1 r2 : Rdv} {m1 m2 : Int}
    (h1 : (r1, m1) ∈ l.zip s) (h2 : (r2, m2) ∈ l.zip s)
    (hk : syncKeyFor r1 = syncKeyFor r2) : r1 = r2 ∧ m1 = m2 := by
  obtain ⟨i, hi, hgi⟩ := List.mem_iff_getElem.mp h1
  obtain ⟨j, hj, hgj⟩ := List.mem_iff_getElem.mp h2
  have hil : i < l.length := by
    rw [List.length_zip] at hi
    omega
  have hjl : j < l.length := by
    rw [List.length_zip] at hj
    omega
  have his : i < s.length := by
    rw [List.length_zip] at hi
    omega
  have hjs : j < s.length := by
    rw [List.length_zip] at hj
    omega
  rw [List.getElem_zip] at hgi hgj
  have hli : l[i] = r1 := by
    have h3 := congrArg Prod.fst hgi
    simpa using h3
  have hsi : s[i] = m1 := by
    have h3 := congrArg Prod.snd hgi
    simpa using h3
  have hlj : l[j] = r2 := by
    have h3 := congrArg Prod.fst hgj
    simpa using h3
  have hsj : s[j] = m2 := by
    have h3 := congrArg Prod.snd hgj
    simpa using h3
  have hmi : i < (l.map syncKeyFor).length := by
    rw [List.length_map]
    exact hil
  have hmj : j < (l.map syncKeyFor).length := by
    rw [List.length_map]
    exact hjl
  have hmapped : (l.map syncKeyFor)[i] = (l.map syncKeyFor)[j] := by
    rw [List.getElem_map, List.getElem_map, hli, hlj, hk]
  have hij : i = j := (List.Nodup.getElem_inj_iff hnd).mp hmapped
  subst hij
  exact ⟨hli.symm.trans hlj, hsi.symm.trans hsj⟩

theorem pyStrip_body_location (loc : String) (hs : pyStrip loc = loc) :
    pyStrip ((if loc ≠ "" then some loc else none).getD "") = loc := by
  by_cases h : loc ≠ ""
  · rw [if_pos h]
    exact hs
  · rw [if_neg h]
    push_neg at h
    rw [h]
    rfl

theorem mem_synchronizeWeek_cases (cfg : SyncConfig) (apps : List Rdv)
    (ex : List (String × GEvent)) (op : PlanOp)
    (hop : op ∈ synchronizeWeek cfg apps ex) :
    (∃ pr ∈ (sortAppointments apps).zip
        (reminderScan cfg.notification cfg.first_of_day none
          (sortAppointments apps)),
      op ∈ emitOp ex (pyStrip cfg.localisation) pr.2 pr.1) ∨
    (∃ k ev, List.lookup k ex = some ev ∧ op = PlanOp.delete k ev.id ∧
      (sortAppointments apps).all (fun r =>
        !(syncKeyFor r == k && (List.lookup (syncKeyFor r) ex).isSome)) = true) := by
  simp only [synchronizeWeek] at hop
  rcases List.mem_append.mp hop with h1 | h1
  · rw [syncLoop_fst] at h1
    obtain ⟨ops, hops, hmem⟩ := List.mem_flatten.mp h1
    obtain ⟨pr, hpr, hpre⟩ := List.mem_map.mp hops
    rw [← hpre] at hmem
    exact Or.inl ⟨pr, hpr, hmem⟩
  · obtain ⟨k, hkmem, hk⟩ := List.mem_filterMap.mp h1
    rw [syncLoop_snd] at hkmem
    have hkfil := List.mem_filter.mp hkmem
    cases hlk : List.lookup k ex with
    | none => rw [hlk] at hk; simp at hk
    | some ev =>
      rw [hlk] at hk
      have hk2 : PlanOp.delete k ev.id = op := by simpa using hk
      exact Or.inr ⟨k, ev, hlk, hk2.symm, hkfil.2⟩

/-- A destination event exactly matching `rdvMorning`'s projection under
`cfgPlain` (no location, one 30-minute popup override). -/
def evMorningSynced : GEvent :=
  { id := "e2", summary := "Suivi [confirmed]",
    description := "Synchronisé depuis Doctolib. SYNC_KEY: " ++ syncKeyFor rdvMorning,
    location := "", reminders := .overrides [("popup", 30)] }

/-- Claim C4: if a projected appointment's identity key is present in the
existing map and the existing event's location and reminder configuration
exactly match the projection (the body built for that appointment with its
assigned minutes), then that key appears in none of the three plan sets: no
create, no update and no delete is issued for it.  Requires the data-model
invariant that identity keys are distinct within the week. -/
theorem C4_diff_minimality (cfg : SyncConfig) (apps : List Rdv)
    (ex : List (String × GEvent)) (rdv : Rdv) (m : Int) (ev : GEvent)
    (hkeys : (apps.map syncKeyFor).Nodup)
    (hzip : (rdv, m) ∈ (sortAppointments apps).zip
      (reminderScan cfg.notification cfg.first_of_day none (sortAppointments apps)))
    (hlk : List.lookup (syncKeyFor rdv) ex = some ev)
    (hloc : ev.location = ((buildEventBody rdv (syncKeyFor rdv)
      (pyStrip cfg.localisation) m).location.getD ""))
    (hrem : ev.reminders = (buildEventBody rdv (syncKeyFor rdv)
      (pyStrip cfg.localisation) m).reminders) :
    syncKeyFor rdv ∉ planCreateKeys (synchronizeWeek cfg apps ex) ∧
    syncKeyFor rdv ∉ planUpdateKeys (synchronizeWeek cfg apps ex) ∧
    syncKeyFor rdv ∉ planDeleteKeys (synchronizeWeek cfg apps ex) := by
  have hnd : ((sortAppointments apps).map syncKeyFor).Nodup :=
    ((sortAppointments_perm apps).map syncKeyFor).nodup_iff.mpr hkeys
  have hstrip : pyStrip ev.location = pyStrip cfg.localisation := by
    rw [hloc]
    have hb : (buildEventBody rdv (syncKeyFor rdv) (pyStrip cfg.localisation)
        m).location =
        (if pyStrip cfg.localisation ≠ "" then some (pyStrip cfg.localisation)
         else none) := rfl
    rw [hb]
    exact pyStrip_body_location _ (pyStrip_idem cfg.localisation)
  refine ⟨?_, ?_, ?_⟩
  · intro hmem
    obtain ⟨b, hb⟩ := mem_planCreateKeys.mp hmem
    rcases mem_synchronizeWeek_cases cfg apps ex _ hb with
      ⟨pr, hpr, hemit⟩ | ⟨k, ev', _, heq, _⟩
    · rcases emitOp_cases _ _ _ _ _ hemit with ⟨hnone, hcr⟩ | ⟨ev', _, hup, _⟩
      · simp only [PlanOp.create.injEq] at hcr
        have huniq := zip_key_unique hnd hpr hzip hcr.1.symm
        rw [huniq.1] at hnone
        rw [hnone] at hlk
        exact Option.noConfusion hlk
      · exact PlanOp.noConfusion hup
    · exact PlanOp.noConfusion heq
  · intro hmem
    obtain ⟨i, b, hb⟩ := mem_planUpdateKeys.mp hmem
    rcases mem_synchronizeWeek_cases cfg apps ex _ hb with
      ⟨pr, hpr, hemit⟩ | ⟨k, ev', _, heq, _⟩
    · rcases emitOp_cases _ _ _ _ _ hemit with ⟨_, hcr⟩ | ⟨ev', hlk', hup, hc⟩
      · exact PlanOp.noConfusion hcr
      · simp only [PlanOp.update.injEq] at hup
        have huniq := zip_key_unique hnd hpr hzip hup.1.symm
        rw [huniq.1] at hlk' hc
        rw [huniq.2] at hc
        rw [hlk] at hlk'
        have hev : ev = ev' := Option.some.inj hlk'
        rcases hc with hc1 | hc1
        · rw [← hev] at hc1
          exact hc1 hstrip
        · rw [← hev] at hc1
          exact hc1 hrem.symm
    · exact PlanOp.noConfusion heq
  · intro hmem
    obtain ⟨i, hb⟩ := mem_planDeleteKeys.mp hmem
    rcases mem_synchronizeWeek_cases cfg apps ex _ hb with
      ⟨pr, hpr, hemit⟩ | ⟨k, ev', hlk', heq, hall⟩
    · rcases emitOp_cases _ _ _ _ _ hemit with ⟨_, hcr⟩ | ⟨ev', _, hup, _⟩
      · exact PlanOp.noConfusion hcr
      · exact PlanOp.noConfusion hup
    · simp only [PlanOp.delete.injEq] at heq
      have hrs : rdv ∈ sortAppointments apps := (List.of_mem_zip hzip).1
      have hterm := List.all_eq_true.mp hall rdv hrs
      rw [← heq.1] at hterm
      rw [hlk] at hterm
      simp at hterm

/-- Claim C4 witness: an existing event exactly matching its appointment's
projection (location empty, default 30-minute popup override) is left alone:
its key is in none of the three plan sets. -/
theorem C4_diff_minimality_witness :
    syncKeyFor rdvMorning ∉ planCreateKeys (synchronizeWeek cfgPlain [rdvMorning]
      [(syncKeyFor rdvMorning, evMorningSynced)]) ∧
    syncKeyFor rdvMorning ∉ planUpdateKeys (synchronizeWeek cfgPlain [rdvMorning]
      [(syncKeyFor rdvMorning, evMorningSynced)]) ∧
    syncKeyFor rdvMorning ∉ planDeleteKeys (synchronizeWeek cfgPlain [rdvMorning]
      [(syncKeyFor rdvMorning, evMorningSynced)]) :=
  C4_diff_minimality cfgPlain [rdvMorning] [(syncKeyFor rdvMorning, evMorningSynced)]
    rdvMorning 30 evMorningSynced (by decide) (by decide) (by decide)
    (by decide) (by decide)

/-! ## Claim C3: effect of applying a plan on lookups -/

theorem any_key_iff (m : List (String × GEvent)) (k : String) :
    (m.any (fun p => p.1 = k)) = true ↔ k ∈ m.map Prod.fst := by
  rw [List.any_eq_true]
  constructor
  · rintro ⟨p, hp, hpk⟩
    exact List.mem_map.mpr ⟨p, hp, by simpa using hpk⟩
  · rintro hk
    obtain ⟨p, hp, hpk⟩ := List.mem_map.mp hk
    exact ⟨p, hp, by simpa using hpk⟩

theorem lookup_map_overwrite (m : List (String × GEvent)) (k : String)
    (v : GEvent) (h : k ∈ m.map Prod.fst) :
    List.lookup k (m.map (fun p => if p.1 = k then (k, v) else p)) = some v := by
  induction m with
  | nil => simp at h
  | cons q t ih =>
    rw [List.map_cons, lookup_cons_unfold]
    by_cases hqk : q.1 = k
    · rw [if_pos hqk]
      simp
    · rw [if_neg hqk]
      have hne : (k == q.1) = false := by
        simp only [beq_eq_false_iff_ne, ne_eq]
        intro hkq
        exact hqk hkq.symm
      rw [hne, if_neg (by simp)]
      apply ih
      simp only [List.map_cons, List.mem_cons] at h
      rcases h with h1 | h1
      · exact absurd h1.symm hqk
      · exact h1

theorem lookup_map_overwrite_ne (m : List (String × GEvent)) (k k' : String)
    (v : GEvent) (h : k' ≠ k) :
    List.lookup k' (m.map (fun p => if p.1 = k then (k, v) else p)) =
      List.lookup k' m := by
  induction m with
  | nil => rfl
  | cons q t ih =>
    rw [List.map_cons, lookup_cons_unfold, lookup_cons_unfold]
    by_cases hqk : q.1 = k
    · rw [if_pos hqk]
      have h1 : (k' == (k, v).1) = false := by
        simp only [beq_eq_false_iff_ne, ne_eq]
        exact h
      have h2 : (k' == q.1) = false := by
        simp only [beq_eq_false_iff_ne, ne_eq]
        rw [hqk]
        exact h
      rw [h1, h2, if_neg (by simp), if_neg (by simp)]
      exact ih
    · rw [if_neg hqk]
      by_cases hq' : k' = q.1
      · have hb : (k' == q.1) = true := by simpa using hq'
        simp [hb]
      · have hb : (k' == q.1) = false := by simpa using hq'
        rw [hb, if_neg (by simp), if_neg (by simp)]
        exact ih

theorem lookup_append_single (m : List (String × GEvent)) (k : String)
    (v : GEvent) :
    List.lookup k (m ++ [(k, v)]) = some ((List.lookup k m).getD v) := by
  induction m with
  | nil => simp [lookup_cons_unfold]
  | cons q t ih =>
    rw [List.cons_append, lookup_cons_unfold, lookup_cons_unfold]
    by_cases hq : k = q.1
    · have hb : (k == q.1) = true := by simpa using hq
      simp [hb]
    · have hb : (k == q.1) = false := by simpa using hq
      rw [hb, if_neg (by simp), if_neg (by simp)]
      exact ih

theorem lookup_append_single_ne (m : List (String × GEvent)) (k k' : String)
    (v : GEvent) (h : k' ≠ k) :
    List.lookup k' (m ++ [(k, v)]) = List.lookup k' m := by
  induction m with
  | nil =>
    rw [List.nil_append, lookup_cons_unfold]
    have hb : (k' == (k, v).1) = false := by
      simp only [beq_eq_false_iff_ne, ne_eq]
      exact h
    rw [hb, if_neg (by simp)]
  | cons q t ih =>
    rw [List.cons_append, lookup_cons_unfold, lookup_cons_unfold]
    by_cases hq : k' = q.1
    · have hb : (k' == q.1) = true := by simpa using hq
      simp [hb]
    · have hb : (k' == q.1) = false := by simpa using hq
      rw [hb, if_neg (by simp), if_neg (by simp)]
      exact ih

theorem lookup_dictInsert_self (m : List (String × GEvent)) (k : String)
    (v : GEvent) : List.lookup k (dictInsert m k v) = some v := by
  unfold dictInsert
  by_cases hc : m.any (fun p => p.1 = k)
  · rw [if_pos hc]
    exact lookup_map_overwrite m k v ((any_key_iff m k).mp hc)
  · rw [if_neg hc]
    rw [lookup_append_single]
    have hk : k ∉ m.map Prod.fst := fun hk => hc ((any_key_iff m k).mpr hk)
    rw [lookup_eq_none_of_not_mem_keys hk]
    rfl

theorem lookup_dictInsert_ne (m : List (String × GEvent)) (k k' : String)
    (v : GEvent) (h : k' ≠ k) :
    List.lookup k' (dictInsert m k v) = List.lookup k' m := by
  unfold dictInsert
  by_cases hc : m.any (fun p => p.1 = k)
  · rw [if_pos hc]
    exact lookup_map_overwrite_ne m k k' v h
  · rw [if_neg hc]
    exact lookup_append_single_ne m k k' v h

theorem lookup_filter_ne_self (m : List (String × GEvent)) (k : String) :
    List.lookup k (m.filter (fun p => p.1 ≠ k)) = none := by
  apply lookup_eq_none_of_not_mem_keys
  intro hk
  obtain ⟨p, hp, hpk⟩ := List.mem_map.mp hk
  have := (List.mem_filter.mp hp).2
  rw [hpk] at this
  simp at this

theorem lookup_filter_ne_other (m : List (String × GEvent)) (k k' : String)
    (h : k' ≠ k) :
    List.lookup k' (m.filter (fun p => p.1 ≠ k)) = List.lookup k' m := by
  induction m with
  | nil => rfl
  | cons q t ih =>
    rw [List.filter_cons]
    by_cases hq : q.1 ≠ k
    · rw [if_pos (by simpa using hq)]
      rw [lookup_cons_unfold, lookup_cons_unfold]
      by_cases hq' : k' = q.1
      · have hb : (k' == q.1) = true := by simpa using hq'
        simp [hb]
      · have hb : (k' == q.1) = false := by simpa using hq'
        rw [hb, if_neg (by simp), if_neg (by simp)]
        exact ih
    · rw [if_neg (by simpa using hq)]
      rw [lookup_cons_unfold]
      push_neg at hq
      have hb : (k' == q.1) = false := by
        simp only [beq_eq_false_iff_ne, ne_eq]
        rw [hq]
        exact h
      rw [hb, if_neg (by simp)]
      exact ih

theorem lookup_applyOp_ne (idOf : String → String) (m : List (String × GEvent))
    (op : PlanOp) (k : String) (h : op.key ≠ k) :
    List.lookup k (applyOp idOf m op) = List.lookup k m := by
  cases op with
  | create k' b =>
    exact lookup_dictInsert_ne m k' k _ (fun hk => h hk.symm)
  | update k' i b =>
    exact lookup_map_overwrite_ne m k' k _ (fun hk => h hk.symm)
  | delete k' i =>
    exact lookup_filter_ne_other m k' k (fun hk => h hk.symm)

theorem lookup_applyPlan_untouched (idOf : String → String)
    (m : List (String × GEvent)) (ops : List PlanOp) (k : String)
    (h : ∀ op ∈ ops, op.key ≠ k) :
    List.lookup k (applyPlan idOf m ops) = List.lookup k m := by
  induction ops generalizing m with
  | nil => rfl
  | cons op t ih =>
    simp only [applyPlan, List.foldl_cons]
    rw [show List.foldl (applyOp idOf) (applyOp idOf m op) t =
      applyPlan idOf (applyOp idOf m op) t from rfl]
    rw [ih _ (fun o ho => h o (List.mem_cons_of_mem _ ho))]
    exact lookup_applyOp_ne idOf m op k (h op (List.mem_cons_self _ _))

theorem keys_ne_of_nodup_middle {pre post : List PlanOp} {op : PlanOp}
    (hnd : ((pre ++ op :: post).map PlanOp.key).Nodup) :
    (∀ o ∈ pre, o.key ≠ op.key) ∧ (∀ o ∈ post, o.key ≠ op.key) := by
  rw [List.map_append, List.map_cons, List.nodup_append] at hnd
  obtain ⟨h1, h2, h3⟩ := hnd
  constructor
  · intro o ho hk
    exact h3 (List.mem_map_of_mem _ ho) (by rw [hk]; exact List.mem_cons_self _ _)
  · intro o ho hk
    rw [List.nodup_cons] at h2
    exact h2.1 (by rw [← hk]; exact List.mem_map_of_mem _ ho)

theorem lookup_applyPlan_split (idOf : String → String)
    (m : List (String × GEvent)) (pre post : List PlanOp) (op : PlanOp)
    (hpost : ∀ o ∈ post, o.key ≠ op.key) :
    List.lookup op.key (applyPlan idOf m (pre ++ op :: post)) =
      List.lookup op.key (applyOp idOf (applyPlan idOf m pre) op) := by
  simp only [applyPlan, List.foldl_append, List.foldl_cons]
  exact lookup_applyPlan_untouched idOf _ post op.key hpost

theorem lookup_applyPlan_create (idOf : String → String)
    (ex : List (String × GEvent)) (ops : List PlanOp) (k : String)
    (b : EventBody) (hnd : (ops.map PlanOp.key).Nodup)
    (hop : PlanOp.create k b ∈ ops) :
    List.lookup k (applyPlan idOf ex ops) = some (eventOfBody (idOf k) b) := by
  obtain ⟨pre, post, heq⟩ := List.append_of_mem hop
  subst heq
  have hsplit := keys_ne_of_nodup_middle hnd
  have h := lookup_applyPlan_split idOf ex pre post (PlanOp.create k b) hsplit.2
  rw [show (PlanOp.create k b).key = k from rfl] at h
  rw [h]
  have hpre := lookup_applyPlan_untouched idOf ex pre k
    (fun o ho => hsplit.1 o ho)
  exact lookup_dictInsert_self _ k _

theorem lookup_applyPlan_update (idOf : String → String)
    (ex : List (String × GEvent)) (ops : List PlanOp) (k i : String)
    (b : EventBody) (hnd : (ops.map PlanOp.key).Nodup)
    (hop : PlanOp.update k i b ∈ ops)
    (hpresent : (List.lookup k ex).isSome) :
    List.lookup k (applyPlan idOf ex ops) = some (eventOfBody i b) := by
  obtain ⟨pre, post, heq⟩ := List.append_of_mem hop
  subst heq
  have hsplit := keys_ne_of_nodup_middle hnd
  have h := lookup_applyPlan_split idOf ex pre post (PlanOp.update k i b) hsplit.2
  rw [show (PlanOp.update k i b).key = k from rfl] at h
  rw [h]
  have hpre := lookup_applyPlan_untouched idOf ex pre k
    (fun o ho => hsplit.1 o ho)
  have hpres2 : k ∈ (applyPlan idOf ex pre).map Prod.fst := by
    cases hl : List.lookup k (applyPlan idOf ex pre) with
    | none =>
      rw [hpre] at hl
      rw [hl] at hpresent
      exact absurd hpresent (by simp)
    | some w =>
      exact List.mem_map_of_mem Prod.fst (mem_of_lookup_eq_some hl)
  exact lookup_map_overwrite _ k _ hpres2

theorem lookup_applyPlan_delete (idOf : String → String)
    (ex : List (String × GEvent)) (ops : List PlanOp) (k i : String)
    (hnd : (ops.map PlanOp.key).Nodup) (hop : PlanOp.delete k i ∈ ops) :
    List.lookup k (applyPlan idOf ex ops) = none := by
  obtain ⟨pre, post, heq⟩ := List.append_of_mem hop
  subst heq
  have hsplit := keys_ne_of_nodup_middle hnd
  have h := lookup_applyPlan_split idOf ex pre post (PlanOp.delete k i) hsplit.2
  rw [show (PlanOp.delete k i).key = k from rfl] at h
  rw [h]
  exact lookup_filter_ne_self _ k

theorem emitOp_shape (ex : List (String × GEvent)) (loc : String) (m : Int)
    (r : Rdv) :
    emitOp ex loc m r = [] ∨
      ∃ op, emitOp ex loc m r = [op] ∧ op.key = syncKeyFor r := by
  simp only [emitOp]
  cases hlk : List.lookup (syncKeyFor r) ex with
  | none =>
    exact Or.inr ⟨_, rfl, rfl⟩
  | some ev =>
    by_cases hc : pyStrip ev.location ≠ loc ∨
        (buildEventBody r (syncKeyFor r) loc m).reminders ≠ ev.reminders
    · right
      refine ⟨PlanOp.update (syncKeyFor r) ev.id
        (buildEventBody r (syncKeyFor r) loc m), ?_, rfl⟩
      show (if pyStrip ev.location ≠ loc ∨
          (buildEventBody r (syncKeyFor r) loc m).reminders ≠ ev.reminders then
            [PlanOp.update (syncKeyFor r) ev.id (buildEventBody r (syncKeyFor r) loc m)]
          else []) =
        [PlanOp.update (syncKeyFor r) ev.id (buildEventBody r (syncKeyFor r) loc m)]
      rw [if_pos hc]
    · left
      show (if pyStrip ev.location ≠ loc ∨
          (buildEventBody r (syncKeyFor r) loc m).reminders ≠ ev.reminders then
            [PlanOp.update (syncKeyFor r) ev.id (buildEventBody r (syncKeyFor r) loc m)]
          else []) = []
      rw [if_neg hc]

theorem emitOp_key (ex : List (String × GEvent)) (loc : String) (m : Int)
    (r : Rdv) : ∀ op ∈ emitOp ex loc m r, op.key = syncKeyFor r := by
  intro op hop
  rcases emitOp_shape ex loc m r with h | ⟨op', hop', hkey⟩
  · rw [h] at hop
    simp at hop
  · rw [hop'] at hop
    simp only [List.mem_singleton] at hop
    rw [hop]
    exact hkey

theorem flatten_emit_keys_sublist (ex : List (String × GEvent)) (loc : String)
    (l : List Rdv) (s : List Int) :
    List.Sublist
      (((l.zip s).map (fun p => emitOp ex loc p.2 p.1)).flatten.map PlanOp.key)
      (l.map syncKeyFor) := by
  induction l generalizing s with
  | nil => simp
  | cons r t ih =>
    cases s with
    | nil => simp
    | cons m s' =>
      rw [List.zip_cons_cons, List.map_cons, List.flatten_cons, List.map_append,
        List.map_cons]
      rcases emitOp_shape ex loc m r with h | ⟨op, hop, hkey⟩
      · rw [h]
        simp only [List.map_nil, List.nil_append]
        exact (ih s').cons _
      · rw [hop]
        simp only [List.map_cons, List.map_nil, List.cons_append, List.nil_append]
        rw [hkey]
        exact (ih s').cons₂ _

theorem filterMap_delete_keys (ex : List (String × GEvent)) (ks : List String)
    (h : ∀ k ∈ ks, (List.lookup k ex).isSome) :
    ((ks.filterMap
      (fun k => (List.lookup k ex).map (fun ev => PlanOp.delete k ev.id))).map
        PlanOp.key) = ks := by
  induction ks with
  | nil => rfl
  | cons k t ih =>
    rw [List.filterMap_cons]
    cases hlk : List.lookup k ex with
    | none =>
      have := h k (List.mem_cons_self _ _)
      rw [hlk] at this
      exact absurd this (by simp)
    | some ev =>
      simp only [Option.map_some']
      rw [List.map_cons]
      rw [ih (fun k' hk' => h k' (List.mem_cons_of_mem _ hk'))]
      rfl

theorem synchronizeWeek_keys_nodup (cfg : SyncConfig) (apps : List Rdv)
    (ex : List (String × GEvent)) (hexnd : (ex.map Prod.fst).Nodup)
    (happnd : (apps.map syncKeyFor).Nodup) :
    ((synchronizeWeek cfg apps ex).map PlanOp.key).Nodup := by
  have hsortnd : ((sortAppointments apps).map syncKeyFor).Nodup :=
    ((sortAppointments_perm apps).map syncKeyFor).nodup_iff.mpr happnd
  simp only [synchronizeWeek, List.map_append]
  rw [syncLoop_fst, syncLoop_snd]
  have hdsub : ∀ k ∈ (ex.map Prod.fst).filter (fun k =>
      (sortAppointments apps).all (fun r =>
        !(syncKeyFor r == k && (List.lookup (syncKeyFor r) ex).isSome))),
      (List.lookup k ex).isSome := by
    intro k hk
    exact lookup_isSome_of_mem_keys (List.mem_of_mem_filter hk)
  rw [filterMap_delete_keys ex _ hdsub]
  rw [List.nodup_append]
  refine ⟨?_, ?_, ?_⟩
  · exact List.Nodup.sublist
      (flatten_emit_keys_sublist ex (pyStrip cfg.localisation) _ _) hsortnd
  · exact List.Nodup.filter _ hexnd
  · intro a ha hamem
    have ha2 : a ∈ (sortAppointments apps).map syncKeyFor :=
      (flatten_emit_keys_sublist ex (pyStrip cfg.localisation) _ _).subset ha
    obtain ⟨r, hr, hrk⟩ := List.mem_map.mp ha2
    have hfil := List.mem_filter.mp hamem
    have hterm := List.all_eq_true.mp hfil.2 r hr
    rw [hrk] at hterm
    have hsome : (List.lookup a ex).isSome :=
      lookup_isSome_of_mem_keys hfil.1
    rw [show List.lookup a ex = List.lookup a ex from rfl] at hsome
    simp only [beq_self_eq_true, Bool.true_and, Bool.not_eq_true'] at hterm
    rw [hterm] at hsome
    exact absurd hsome (by simp)

theorem create_mem_of_pair (cfg : SyncConfig) (apps : List Rdv)
    (ex : List (String × GEvent)) (r : Rdv) (m : Int)
    (hpr : (r, m) ∈ (sortAppointments apps).zip
      (reminderScan cfg.notification cfg.first_of_day none (sortAppointments apps)))
    (hlk : List.lookup (syncKeyFor r) ex = none) :
    PlanOp.create (syncKeyFor r)
        (buildEventBody r (syncKeyFor r) (pyStrip cfg.localisation) m) ∈
      synchronizeWeek cfg apps ex := by
  simp only [synchronizeWeek]
  apply List.mem_append.mpr
  left
  rw [syncLoop_fst]
  apply List.mem_flatten.mpr
  refine ⟨emitOp ex (pyStrip cfg.localisation) m r, ?_, ?_⟩
  · exact List.mem_map.mpr ⟨(r, m), hpr, rfl⟩
  · simp only [emitOp]
    rw [hlk]
    show PlanOp.create (syncKeyFor r)
        (buildEventBody r (syncKeyFor r) (pyStrip cfg.localisation) m) ∈
      [PlanOp.create (syncKeyFor r)
        (buildEventBody r (syncKeyFor r) (pyStrip cfg.localisation) m)]
    exact List.mem_singleton.mpr rfl

theorem update_mem_of_pair (cfg : SyncConfig) (apps : List Rdv)
    (ex : List (String × GEvent)) (r : Rdv) (m : Int) (ev : GEvent)
    (hpr : (r, m) ∈ (sortAppointments apps).zip
      (reminderScan cfg.notification cfg.first_of_day none (sortAppointments apps)))
    (hlk : List.lookup (syncKeyFor r) ex = some ev)
    (hc : pyStrip ev.location ≠ pyStrip cfg.localisation ∨
      (buildEventBody r (syncKeyFor r) (pyStrip cfg.localisation) m).reminders ≠
        ev.reminders) :
    PlanOp.update (syncKeyFor r) ev.id
        (buildEventBody r (syncKeyFor r) (pyStrip cfg.localisation) m) ∈
      synchronizeWeek cfg apps ex := by
  simp only [synchronizeWeek]
  apply List.mem_append.mpr
  left
  rw [syncLoop_fst]
  apply List.mem_flatten.mpr
  refine ⟨emitOp ex (pyStrip cfg.localisation) m r, ?_, ?_⟩
  · exact List.mem_map.mpr ⟨(r, m), hpr, rfl⟩
  · simp only [emitOp]
    rw [hlk]
    show PlanOp.update (syncKeyFor r) ev.id
        (buildEventBody r (syncKeyFor r) (pyStrip cfg.localisation) m) ∈
      (if pyStrip ev.location ≠ pyStrip cfg.localisation ∨
          (buildEventBody r (syncKeyFor r) (pyStrip cfg.localisation) m).reminders ≠
            ev.reminders then
        [PlanOp.update (syncKeyFor r) ev.id
          (buildEventBody r (syncKeyFor r) (pyStrip cfg.localisation) m)]
      else [])
    rw [if_pos hc]
    exact List.mem_singleton.mpr rfl

theorem delete_mem_of_unmatched (cfg : SyncConfig) (apps : List Rdv)
    (ex : List (String × GEvent)) (hexnd : (ex.map Prod.fst).Nodup)
    (p : String × GEvent) (hp : p ∈ ex)
    (hnom : ∀ r ∈ apps, syncKeyFor r ≠ p.1) :
    PlanOp.delete p.1 p.2.id ∈ synchronizeWeek cfg apps ex := by
  have h := synchronizeWeek_delete_ops cfg apps ex hexnd
  have hmem : PlanOp.delete p.1 p.2.id ∈
      planDeleteOps (synchronizeWeek cfg apps ex) := by
    rw [h]
    apply List.mem_map_of_mem
    apply List.mem_filter.mpr
    refine ⟨hp, ?_⟩
    simp only [Bool.not_eq_true', List.any_eq_false]
    intro r hr
    have := hnom r hr
    simpa using this
  exact List.mem_of_mem_filter hmem

theorem no_key_op_of_noop (cfg : SyncConfig) (apps : List Rdv)
    (ex : List (String × GEvent)) (r : Rdv) (m : Int) (ev : GEvent)
    (happnd : (apps.map syncKeyFor).Nodup)
    (hpr : (r, m) ∈ (sortAppointments apps).zip
      (reminderScan cfg.notification cfg.first_of_day none (sortAppointments apps)))
    (hlk : List.lookup (syncKeyFor r) ex = some ev)
    (hc : ¬(pyStrip ev.location ≠ pyStrip cfg.localisation ∨
      (buildEventBody r (syncKeyFor r) (pyStrip cfg.localisation) m).reminders ≠
        ev.reminders)) :
    ∀ op ∈ synchronizeWeek cfg apps ex, op.key ≠ syncKeyFor r := by
  have hsortnd : ((sortAppointments apps).map syncKeyFor).Nodup :=
    ((sortAppointments_perm apps).map syncKeyFor).nodup_iff.mpr happnd
  intro op hop hkey
  rcases mem_synchronizeWeek_cases cfg apps ex op hop with
    ⟨pr, hpr2, hemit⟩ | ⟨k, ev', hlk', heq, hall⟩
  · have hk2 : syncKeyFor pr.1 = syncKeyFor r := by
      rw [← emitOp_key _ _ _ _ op hemit]
      exact hkey
    have huniq := zip_key_unique hsortnd hpr2 hpr hk2
    rw [huniq.1, huniq.2] at hemit
    simp only [emitOp] at hemit
    rw [hlk] at hemit
    have hemit2 : op ∈ (if pyStrip ev.location ≠ pyStrip cfg.localisation ∨
        (buildEventBody r (syncKeyFor r) (pyStrip cfg.localisation) m).reminders ≠
          ev.reminders then
        [PlanOp.update (syncKeyFor r) ev.id
          (buildEventBody r (syncKeyFor r) (pyStrip cfg.localisation) m)]
      else []) := hemit
    rw [if_neg hc] at hemit2
    simp at hemit2
  · have hkk : k = syncKeyFor r := by
      rw [heq] at hkey
      exact hkey
    have hterm := List.all_eq_true.mp hall r (List.of_mem_zip hpr).1
    rw [hkk] at hterm
    rw [hlk] at hterm
    simp at hterm

theorem no_key_op_of_foreign (cfg : SyncConfig) (apps : List Rdv)
    (ex : List (String × GEvent)) (k : String)
    (hnk : ∀ r ∈ sortAppointments apps, syncKeyFor r ≠ k)
    (hnex : k ∉ ex.map Prod.fst) :
    ∀ op ∈ synchronizeWeek cfg apps ex, op.key ≠ k := by
  intro op hop hkey
  rcases mem_synchronizeWeek_cases cfg apps ex op hop with
    ⟨pr, hpr2, hemit⟩ | ⟨k', ev', hlk', heq, _⟩
  · have hek := emitOp_key _ _ _ _ op hemit
    exact hnk pr.1 (List.of_mem_zip hpr2).1 (by rw [← hek]; exact hkey)
  · have hk' : k' = k := by
      rw [heq] at hkey
      exact hkey
    apply hnex
    rw [← hk']
    exact List.mem_map_of_mem Prod.fst (mem_of_lookup_eq_some hlk')

theorem emitOp_eq_nil_of_match (M : List (String × GEvent)) (loc : String)
    (m : Int) (r : Rdv) (ev : GEvent)
    (hlk : List.lookup (syncKeyFor r) M = some ev)
    (hloc : pyStrip ev.location = loc)
    (hrem : (buildEventBody r (syncKeyFor r) loc m).reminders = ev.reminders) :
    emitOp M loc m r = [] := by
  simp only [emitOp]
  rw [hlk]
  show (if pyStrip ev.location ≠ loc ∨
      (buildEventBody r (syncKeyFor r) loc m).reminders ≠ ev.reminders then
    [PlanOp.update (syncKeyFor r) ev.id (buildEventBody r (syncKeyFor r) loc m)]
  else []) = []
  rw [if_neg]
  push_neg
  exact ⟨hloc, hrem⟩

theorem synchronizeWeek_eq_nil (cfg : SyncConfig) (apps : List Rdv)
    (M : List (String × GEvent))
    (hemit : ∀ pr ∈ (sortAppointments apps).zip
      (reminderScan cfg.notification cfg.first_of_day none (sortAppointments apps)),
      emitOp M (pyStrip cfg.localisation) pr.2 pr.1 = [])
    (hfil : (M.map Prod.fst).filter (fun k => (sortAppointments apps).all
      (fun r => !(syncKeyFor r == k &&
        (List.lookup (syncKeyFor r) M).isSome))) = []) :
    synchronizeWeek cfg apps M = [] := by
  simp only [synchronizeWeek]
  rw [syncLoop_fst, syncLoop_snd]
  rw [List.flatten_eq_nil_iff.mpr ?_, hfil]
  · rfl
  · intro l hl
    obtain ⟨pr, hpr, hprl⟩ := List.mem_map.mp hl
    rw [← hprl]
    exact hemit pr hpr

/-- Claim C3: idempotence of the reconciliation.  If a week's plan is applied
successfully to the destination map (creates insert their projected event
under their key with a gateway-chosen id, updates rewrite the matched entry,
deletes remove theirs), then running `synchronize_week` again with the
unchanged appointment list against the resulting map issues no operation at
all: zero creates, zero updates, zero deletes.  Uses the dict invariant
(distinct map keys) and the spec's invariant that identity keys are distinct
within the week. -/
theorem C3_idempotence (cfg : SyncConfig) (apps : List Rdv)
    (ex : List (String × GEvent)) (idOf : String → String)
    (hexnd : (ex.map Prod.fst).Nodup)
    (happnd : (apps.map syncKeyFor).Nodup) :
    synchronizeWeek cfg apps
      (applyPlan idOf ex (synchronizeWeek cfg apps ex)) = [] := by
  have hopnd := synchronizeWeek_keys_nodup cfg apps ex hexnd happnd
  apply synchronizeWeek_eq_nil
  · intro pr hpr
    cases hlk : List.lookup (syncKeyFor pr.1) ex with
    | none =>
      have hmem := create_mem_of_pair cfg apps ex pr.1 pr.2 hpr hlk
      have happl := lookup_applyPlan_create idOf ex _ (syncKeyFor pr.1)
        (buildEventBody pr.1 (syncKeyFor pr.1) (pyStrip cfg.localisation) pr.2)
        hopnd hmem
      apply emitOp_eq_nil_of_match _ _ _ _ _ happl ?_ rfl
      show pyStrip ((if pyStrip cfg.localisation ≠ "" then
          some (pyStrip cfg.localisation) else none).getD "") =
        pyStrip cfg.localisation
      exact pyStrip_body_location _ (pyStrip_idem cfg.localisation)
    | some ev =>
      by_cases hc : pyStrip ev.location ≠ pyStrip cfg.localisation ∨
          (buildEventBody pr.1 (syncKeyFor pr.1) (pyStrip cfg.localisation)
            pr.2).reminders ≠ ev.reminders
      · have hmem := update_mem_of_pair cfg apps ex pr.1 pr.2 ev hpr hlk hc
        have happl := lookup_applyPlan_update idOf ex _ (syncKeyFor pr.1) ev.id
          (buildEventBody pr.1 (syncKeyFor pr.1) (pyStrip cfg.localisation) pr.2)
          hopnd hmem (by rw [hlk]; rfl)
        apply emitOp_eq_nil_of_match _ _ _ _ _ happl ?_ rfl
        show pyStrip ((if pyStrip cfg.localisation ≠ "" then
            some (pyStrip cfg.localisation) else none).getD "") =
          pyStrip cfg.localisation
        exact pyStrip_body_location _ (pyStrip_idem cfg.localisation)
      · have hnok := no_key_op_of_noop cfg apps ex pr.1 pr.2 ev happnd hpr hlk hc
        have happl : List.lookup (syncKeyFor pr.1)
            (applyPlan idOf ex (synchronizeWeek cfg apps ex)) = some ev := by
          rw [lookup_applyPlan_untouched idOf ex _ _ hnok]
          exact hlk
        push_neg at hc
        exact emitOp_eq_nil_of_match _ _ _ _ _ happl hc.1 hc.2
  · rw [List.filter_eq_nil_iff]
    intro k hk hcond
    have hsome : (List.lookup k
        (applyPlan idOf ex (synchronizeWeek cfg apps ex))).isSome :=
      lookup_isSome_of_mem_keys hk
    have hex : ∃ r ∈ sortAppointments apps, syncKeyFor r = k := by
      by_contra hno
      push_neg at hno
      by_cases hke : k ∈ ex.map Prod.fst
      · obtain ⟨p, hp, hpk⟩ := List.mem_map.mp hke
        have hdel := delete_mem_of_unmatched cfg apps ex hexnd p hp ?_
        · have hnone := lookup_applyPlan_delete idOf ex _ p.1 p.2.id hopnd hdel
          rw [hpk] at hnone
          rw [hnone] at hsome
          exact absurd hsome (by simp)
        · intro r hr
          rw [hpk]
          exact hno r (mem_sortAppointments.mpr hr)
      · have hfor := no_key_op_of_foreign cfg apps ex k hno hke
        have huntouched := lookup_applyPlan_untouched idOf ex _ k hfor
        rw [lookup_eq_none_of_not_mem_keys hke] at huntouched
        rw [huntouched] at hsome
        exact absurd hsome (by simp)
    obtain ⟨r, hrs, hrk⟩ := hex
    have hterm := List.all_eq_true.mp hcond r hrs
    rw [hrk] at hterm
    simp only [beq_self_eq_true, Bool.true_and, Bool.not_eq_true'] at hterm
    rw [hterm] at hsome
    exact absurd hsome (by simp)

/-- Claim C3 witness: one appointment against a stale tracked event plus an
orphan tracked event; after applying the produced plan, a second run issues
nothing. -/
theorem C3_idempotence_witness :
    synchronizeWeek cfgPlain [rdvMorning]
      (applyPlan (fun _ => "new-id")
        [(syncKeyFor rdvMorning, evMorningStale), ("old-key", evOrphan)]
        (synchronizeWeek cfgPlain [rdvMorning]
          [(syncKeyFor rdvMorning, evMorningStale), ("old-key", evOrphan)])) = [] :=
  C3_idempotence cfgPlain [rdvMorning]
    [(syncKeyFor rdvMorning, evMorningStale), ("old-key", evOrphan)]
    (fun _ => "new-id") (by decide) (by decide)
